import Mathlib

/-!
Verification development for the `depinject` dependency-injection container
(package `depinject` of the repository, plus its type-validation helper file).

The Go sources are shallowly embedded:
* `reflect.Type` becomes the inductive `GoType` (names, package paths, kinds,
  element types, method sets); `reflect.Value` becomes the inductive `Value`.
* the mutable `container` becomes an explicit state record threaded through
  the resolution functions; Go maps become association lists;
* the mutually recursive resolution functions (`call`, `resolveInputs`,
  `resolve`, the `resolver.resolve` implementations and the memoized
  provider invocation) become a fuel-indexed family of total functions;
* diagnostics-only state of the source (graphviz nodes, loggers, the
  `resolveStack` used solely for error formatting) is omitted: no claim
  mentions it and no resolution decision in the source depends on it.

Functions whose bodies live in repository files that are not part of the
source snapshot (only their callers are) are marked `Modelled from the spec:`
in their doc comment and follow the specification text.
-/

/-! ## Go types (`reflect.Type`) -/

/-- Kinds of Go types, mirroring the `reflect.Kind` values the sources branch on. -/
inductive GoKind where
  | kbool | kint | kfloat32 | kfloat64 | kstring | kstruct | kinterface
  | kptr | kslice | karray | kchan | kmap | kfunc | kother
deriving DecidableEq

/-- Shallow embedding of `reflect.Type`.  Every constructor carries the
type's `Name()` and `PkgPath()` (both empty for unnamed/builtin composites).
`atom` covers the non-composite kinds (booleans, numbers, strings, structs,
interfaces); its `methods` field is the method set used for
`reflect.Type.Implements` (for an interface atom, the required methods).
Struct fields are not represented: none of the embedded source functions
inspects them. -/
inductive GoType where
  | atom (name pkgPath : String) (kind : GoKind) (methods : List String)
  | ptr (name pkgPath : String) (elem : GoType)
  | slice (name pkgPath : String) (elem : GoType)
  | array (name pkgPath : String) (size : Nat) (elem : GoType)
  | chan (name pkgPath : String) (elem : GoType)
  | goMap (name pkgPath : String) (key elem : GoType)
  | func (name pkgPath : String) (ins outs : List GoType)


mutual

def GoType.beq : GoType → GoType → Bool
  | .atom n p k m, .atom n' p' k' m' => n == n' && p == p' && k == k' && m == m'
  | .ptr n p e, .ptr n' p' e' => n == n' && p == p' && GoType.beq e e'
  | .slice n p e, .slice n' p' e' => n == n' && p == p' && GoType.beq e e'
  | .array n p s e, .array n' p' s' e' => n == n' && p == p' && s == s' && GoType.beq e e'
  | .chan n p e, .chan n' p' e' => n == n' && p == p' && GoType.beq e e'
  | .goMap n p k e, .goMap n' p' k' e' => n == n' && p == p' && GoType.beq k k' && GoType.beq e e'
  | .func n p i o, .func n' p' i' o' => n == n' && p == p' && GoType.beqList i i' && GoType.beqList o o'
  | _, _ => false

def GoType.beqList : List GoType → List GoType → Bool
  | [], [] => true
  | t :: ts, u :: us => GoType.beq t u && GoType.beqList ts us
  | _, _ => false

end

mutual

def GoType.beqIff : ∀ (a b : GoType), GoType.beq a b = true ↔ a = b
  | .atom n p k m, b => by
    cases b <;> simp [and_assoc, GoType.beq]
  | .ptr n p e, b => by
    cases b <;> simp [and_assoc, GoType.beq, GoType.beqIff e]
  | .slice n p e, b => by
    cases b <;> simp [and_assoc, GoType.beq, GoType.beqIff e]
  | .array n p s e, b => by
    cases b <;> simp [and_assoc, GoType.beq, GoType.beqIff e]
  | .chan n p e, b => by
    cases b <;> simp [and_assoc, GoType.beq, GoType.beqIff e]
  | .goMap n p k e, b => by
    cases b <;> simp [and_assoc, GoType.beq, GoType.beqIff k, GoType.beqIff e]
  | .func n p i o, b => by
    cases b <;> simp [and_assoc, GoType.beq, GoType.beqListIff i, GoType.beqListIff o]

def GoType.beqListIff : ∀ (a b : List GoType), GoType.beqList a b = true ↔ a = b
  | [], b => by cases b <;> simp [GoType.beqList]
  | t :: ts, b => by
    cases b <;> simp [GoType.beqList, GoType.beqIff t, GoType.beqListIff ts]

end

instance : DecidableEq GoType := fun a b => decidable_of_iff _ (GoType.beqIff a b)

/-- `reflect.Type.Name()`. -/
def GoType.name : GoType → String
  | .atom n _ _ _ => n
  | .ptr n _ _ => n
  | .slice n _ _ => n
  | .array n _ _ _ => n
  | .chan n _ _ => n
  | .goMap n _ _ _ => n
  | .func n _ _ _ => n

/-- `reflect.Type.PkgPath()`. -/
def GoType.pkgPath : GoType → String
  | .atom _ p _ _ => p
  | .ptr _ p _ => p
  | .slice _ p _ => p
  | .array _ p _ _ => p
  | .chan _ p _ => p
  | .goMap _ p _ _ => p
  | .func _ p _ _ => p

/-- `reflect.Type.Kind()`. -/
def GoType.kind : GoType → GoKind
  | .atom _ _ k _ => k
  | .ptr .. => .kptr
  | .slice .. => .kslice
  | .array .. => .karray
  | .chan .. => .kchan
  | .goMap .. => .kmap
  | .func .. => .kfunc

/-- `reflect.Type.Elem()` (for maps, the value type).  The source only calls
it on pointer/slice/array/chan/map kinds; on other kinds we return the type
itself. -/
def GoType.elemType : GoType → GoType
  | .ptr _ _ e => e
  | .slice _ _ e => e
  | .array _ _ _ e => e
  | .chan _ _ e => e
  | .goMap _ _ _ e => e
  | t => t

/-- `reflect.Type.Key()` of a map type. -/
def GoType.keyType : GoType → GoType
  | .goMap _ _ k _ => k
  | t => t

/-- Method set used for `reflect.Type.Implements`; method identity stands in
for the full method signature. -/
def GoType.methodSet : GoType → List String
  | .atom _ _ _ ms => ms
  | _ => []

/-- `t.Implements(iface)`: every method required by the interface is in the
method set of `t`. -/
def implements (t iface : GoType) : Bool :=
  iface.methodSet.all (fun m => t.methodSet.contains m)

/-! ## Type-name validation (`isExportedType` and helpers) -/

/-- Structured form of the two validation errors `ErrTypeNotExported` and
`ErrInternalPackage`, each wrapped with the offending type (`errors.Wrapf`). -/
inductive ExportErr where
  | notExported (typ : GoType)
  | internalPackage (typ : GoType)
deriving DecidableEq

/-- The type carried by an `ExportErr` (the `%s` argument of the wrap). -/
def ExportErr.offender : ExportErr → GoType
  | .notExported t => t
  | .internalPackage t => t

/-- Split a string at '/' separators (the behavior of
`strings.Split(s, "/")`, re-implemented structurally). -/
def splitCharsOn (sep : Char) : List Char → List String
  | [] => [""]
  | c :: cs =>
    let rest := splitCharsOn sep cs
    if c = sep then "" :: rest
    else match rest with
      | [] => [String.mk [c]]
      | shead :: stail => String.mk (c :: shead.data) :: stail

/-- Path segments of a package path. -/
def pathSegments (s : String) : List String :=
  splitCharsOn '/' s.data

/-- `isExported`: the first character of the name is not lowercase (an empty
name, which `checkNamedType` never passes, counts as exported). -/
def isExported (name : String) : Bool :=
  match name.data with
  | [] => true
  | c :: _ => !(c.isLower)

/-- `isInternalPackage`: the package path contains an "internal" segment. -/
def isInternalPackage (pkgPath : String) : Bool :=
  (pathSegments pkgPath).contains "internal"

/-- `isNamedType`: the type has both a name and a package path. -/
def isNamedType (typ : GoType) : Bool :=
  typ.name ≠ "" && typ.pkgPath ≠ ""

/-- `checkNamedType`: a named type must be exported and not from an internal
package. -/
def checkNamedType (typ : GoType) : Except ExportErr Unit :=
  if !(isExported typ.name) then .error (.notExported typ)
  else if isInternalPackage typ.pkgPath then .error (.internalPackage typ)
  else .ok ()

mutual

/-- `isExportedType`: named types are checked by `checkNamedType` (with no
recursion into their structure); unnamed composite types recurse into their
element/key/parameter types exactly as `checkCompositeType`/`checkFuncType`
do (the kind switch of `checkCompositeType` is inlined into this pattern
match; other kinds are accepted). -/
def isExportedType : GoType → Except ExportErr Unit
  | t@(.atom ..) => if isNamedType t then checkNamedType t else .ok ()
  | t@(.ptr _ _ e) => if isNamedType t then checkNamedType t else isExportedType e
  | t@(.slice _ _ e) => if isNamedType t then checkNamedType t else isExportedType e
  | t@(.array _ _ _ e) => if isNamedType t then checkNamedType t else isExportedType e
  | t@(.chan _ _ e) => if isNamedType t then checkNamedType t else isExportedType e
  | t@(.goMap _ _ k e) =>
    if isNamedType t then checkNamedType t
    else match isExportedType k with
      | .error err => .error err
      | .ok () => isExportedType e
  | t@(.func _ _ ins outs) =>
    if isNamedType t then checkNamedType t
    else match isExportedList ins with
      | .error err => .error err
      | .ok () => isExportedList outs

/-- The loops of `checkFuncType`: validate a list of input/output types,
returning the first error. -/
def isExportedList : List GoType → Except ExportErr Unit
  | [] => .ok ()
  | t :: rest =>
    match isExportedType t with
    | .error err => .error err
    | .ok () => isExportedList rest

end

/-! ## Type names and binding keys -/

/-- Short package name used by `reflect.Type.String()`: the last segment of
the package path. -/
def lastPkgSegment (pkgPath : String) : String :=
  (pathSegments pkgPath).getLastD pkgPath

mutual

/-- Model of Go's `fmt.Sprintf("%v", typ)` on a `reflect.Type`: named types
print as `shortpkg.Name`, unnamed composites print structurally. -/
def GoType.typeString : GoType → String
  | .atom n p _ _ => if p = "" then n else lastPkgSegment p ++ "." ++ n
  | .ptr n p e => if n ≠ "" then lastPkgSegment p ++ "." ++ n else "*" ++ GoType.typeString e
  | .slice n p e => if n ≠ "" then lastPkgSegment p ++ "." ++ n else "[]" ++ GoType.typeString e
  | .array n p s e =>
    if n ≠ "" then lastPkgSegment p ++ "." ++ n
    else "[" ++ toString s ++ "]" ++ GoType.typeString e
  | .chan n p e => if n ≠ "" then lastPkgSegment p ++ "." ++ n else "chan " ++ GoType.typeString e
  | .goMap n p k e =>
    if n ≠ "" then lastPkgSegment p ++ "." ++ n
    else "map[" ++ GoType.typeString k ++ "]" ++ GoType.typeString e
  | .func n p ins outs =>
    if n ≠ "" then lastPkgSegment p ++ "." ++ n
    else "func(" ++ GoType.typeStringList ins ++ ") (" ++ GoType.typeStringList outs ++ ")"

def GoType.typeStringList : List GoType → String
  | [] => ""
  | [t] => GoType.typeString t
  | t :: rest => GoType.typeString t ++ ", " ++ GoType.typeStringList rest

end

/-- `fullyQualifiedTypeName`: pointer/slice/map/array types take the package
path of their element type; if the (element) package path is empty the plain
`%v` rendering is used, otherwise it is `pkgPath/%v`. -/
def fullyQualifiedTypeName (typ : GoType) : String :=
  let pkgType :=
    match typ.kind with
    | .kptr | .kslice | .kmap | .karray => typ.elemType
    | _ => typ
  if pkgType.pkgPath = "" then typ.typeString
  else pkgType.pkgPath ++ "/" ++ typ.typeString

/-- The module-scope key (`moduleKey`): an interned named scope. -/
structure ModuleKey where
  name : String
deriving DecidableEq

/-- `bindingKeyFromTypeName`: `typeName ++ ";"` for the global scope,
`typeName ++ ";" ++ moduleName` for a module scope. -/
def bindingKeyFromTypeName (typeName : String) (key : Option ModuleKey) : String :=
  match key with
  | none => typeName ++ ";"
  | some k => typeName ++ ";" ++ k.name

/-- `bindingKeyFromType`. -/
def bindingKeyFromType (typ : GoType) (key : Option ModuleKey) : String :=
  bindingKeyFromTypeName (fullyQualifiedTypeName typ) key

/-! ## Locations, values, errors -/

/-- `location`: identity of a registration site (function name, package,
file, line), as produced by `LocationFromCaller`. -/
structure Location where
  name : String
  pkg : String
  file : String
  line : Nat
deriving DecidableEq

/-- `Location.Name()`, via `formatFullName`: `pkg ++ "." ++ name`. -/
def Location.fullName (l : Location) : String :=
  l.pkg ++ "." ++ l.name

/-- Shallow embedding of `reflect.Value`: strings, integers, booleans,
slice-kinded values (`coll`), and the zero value of a type (used when an
optional input has no resolver). -/
inductive Value where
  | vstr (s : String)
  | vint (n : Int)
  | vbool (b : Bool)
  | coll (elems : List Value)
  | zero (typ : GoType)

mutual

def Value.beq : Value → Value → Bool
  | .vstr s, .vstr s' => s == s'
  | .vint n, .vint n' => n == n'
  | .vbool b, .vbool b' => b == b'
  | .coll xs, .coll ys => Value.beqList xs ys
  | .zero t, .zero t' => t == t'
  | _, _ => false

def Value.beqList : List Value → List Value → Bool
  | [], [] => true
  | v :: vs, w :: ws => Value.beq v w && Value.beqList vs ws
  | _, _ => false

end

mutual

def Value.beqIff : ∀ (a b : Value), Value.beq a b = true ↔ a = b
  | .vstr s, b => by cases b <;> simp [Value.beq]
  | .vint n, b => by cases b <;> simp [Value.beq]
  | .vbool x, b => by cases b <;> simp [Value.beq]
  | .coll xs, b => by cases b <;> simp [Value.beq, Value.beqListIff xs]
  | .zero t, b => by
    cases b <;> simp [Value.beq, beq_iff_eq]

def Value.beqListIff : ∀ (a b : List Value), Value.beqList a b = true ↔ a = b
  | [], b => by cases b <;> simp [Value.beqList]
  | v :: vs, b => by
    cases b <;> simp [Value.beqList, Value.beqIff v, Value.beqListIff vs]

end

instance : DecidableEq Value := fun a b => decidable_of_iff _ (Value.beqIff a b)

/-- Structured form of the error values the embedded functions produce. -/
inductive Err where
  | cyclicDependency (loc : Location)
  | invalidManyPerContainer (typ sliceType : GoType)
  | multipleImplicitBindings (iface : GoType) (matchList : List GoType)
  | noTypeForExplicitBinding (implName ifaceName moduleName : String)
  | missingDependency (typ : GoType)
  | providerError (loc : Location) (msg : String)
  | duplicateDefinition (typ : GoType) (newLoc : Location) (oldLoc : String)
  | emptyModuleName
  | outOfFuel
  | internalError (msg : String)
deriving DecidableEq

deriving instance DecidableEq for Except

/-- Rendering of the error messages the claims quote, following the Go
sources (`errors.Wrapf(base, fmt, ...)` renders as `fmt ++ ": " ++ base`). -/
def Err.message : Err → String
  | .cyclicDependency loc =>
    loc.fullName ++ " -> " ++ loc.fullName ++ ": cyclic dependency detected"
  | .invalidManyPerContainer typ sliceType =>
    typ.typeString ++ " is a many-per-container type and cannot be used as an input value, use "
      ++ sliceType.typeString ++ " instead: invalid many-per-container type usage"
  | .emptyModuleName => "expected non-empty module name"
  | _ => ""

/-! ## Many-per-container and one-per-module type predicates -/

/-- The marker interface `ManyPerContainerType`. -/
def manyPerContainerTypeType : GoType :=
  .atom "ManyPerContainerType" "cosmossdk.io/depinject" .kinterface ["IsManyPerContainerType"]

/-- `isManyPerContainerType`: the type implements the marker interface. -/
def isManyPerContainerType (t : GoType) : Bool :=
  implements t manyPerContainerTypeType

/-- `isManyPerContainerSliceType`: a slice whose element type is a
many-per-container type. -/
def isManyPerContainerSliceType (typ : GoType) : Bool :=
  typ.kind == .kslice && isManyPerContainerType typ.elemType

/-- Modelled from the spec: the `OnePerModuleType` marker interface of the
scoped-map resolver (its defining file is not part of the source snapshot). -/
def onePerModuleTypeType : GoType :=
  .atom "OnePerModuleType" "cosmossdk.io/depinject" .kinterface ["IsOnePerModuleType"]

/-- Modelled from the spec: `isOnePerModuleMapType` — a map from scope names
(strings) to values of a one-per-module type ("exposed as a mapping from
scope name to value", spec section 4.4); its defining file is not part of
the source snapshot but `getElementType` in `container.go` calls it. -/
def isOnePerModuleMapType (typ : GoType) : Bool :=
  typ.kind == .kmap
    && typ.keyType == GoType.atom "string" "" .kstring []
    && implements typ.elemType onePerModuleTypeType

/-! ## Providers, resolvers, the container record -/

/-- One input of a provider: its type and the optional flag. -/
structure providerInput where
  typ : GoType
  optional : Bool

/-- `providerDescriptor`: registration site, typed inputs and outputs, and
the callable itself (a pure function from resolved input values to output
values or a Go error message). -/
structure providerDescriptor where
  location : Location
  inputs : List providerInput
  outputs : List GoType
  fn : List Value → Except String (List Value)

/-- Modelled from the spec: `simpleProvider` — the memoized record of one
registered provider ("invoked at most once, caching the result for the
container's lifetime", spec section 3); its defining file is not part of the
source snapshot.  `called`/`values` are the memoization state. -/
structure simpleProvider where
  provider : providerDescriptor
  moduleKey : Option ModuleKey
  called : Bool
  values : List Value

/-- `groupResolver` state: element and slice type, the ordered contributions
as parallel lists of provider indices (indices into the container's
`simpleProviders` store, standing in for Go's shared pointers) and output
indices, plus the resolution cache (`resolved`/`values`). -/
structure groupResolver where
  typ : GoType
  sliceType : GoType
  idxsInValues : List Nat
  providers : List Nat
  resolved : Bool
  values : List Value

/-- A `resolver` registry entry.  `simple` points at a `simpleProvider`
(with the produced type and the output index), `sliceGroup`/`group` point at
a `groupResolver` (carrying `getType()`, which for both variants is the
group's slice type). -/
inductive resolver where
  | simple (spIdx : Nat) (typ : GoType) (idxInValues : Nat)
  | sliceGroup (grIdx : Nat) (sliceType : GoType)
  | group (grIdx : Nat) (sliceType : GoType)
deriving DecidableEq

/-- `resolver.getType()`: the type a registry entry produces (for both group
variants this is the slice type, as in `group.go`). -/
def resolver.getType : resolver → GoType
  | .simple _ t _ => t
  | .sliceGroup _ st => st
  | .group _ st => st

/-- `interfaceBinding`: an explicit preferred implementation for an
interface type, optionally scoped, with the resolver cached once located. -/
structure interfaceBinding where
  interfaceName : String
  implTypeName : String
  moduleKey : Option ModuleKey
  boundResolver : Option resolver

/-- The `container` record: resolver registry and interface-binding table
(association lists standing in for Go maps), the stores backing the shared
mutable `simpleProvider`/`groupResolver` records, and the active-call stack
(`callerStack` plus the `callerMap` membership set).  Diagnostic-only fields
of the source (`debugConfig`, graph nodes, `resolveStack`) and the invoker
list are omitted: the embedded functions never read them. -/
structure container where
  resolvers : List (String × resolver)
  interfaceBindings : List (String × interfaceBinding)
  simpleProviders : List simpleProvider
  groupResolvers : List groupResolver
  callerStack : List Location
  callerMap : List Location

/-- The fresh container produced by `newContainer`. -/
def newContainer : container :=
  { resolvers := []
    interfaceBindings := []
    simpleProviders := []
    groupResolvers := []
    callerStack := []
    callerMap := [] }

/-- Go map update on an association list: replace the value if the key is
present, append otherwise. -/
def assocUpsert {α : Type} (l : List (String × α)) (k : String) (v : α) : List (String × α) :=
  if l.any (fun p => p.1 = k) then l.map (fun p => if p.1 = k then (k, v) else p)
  else l ++ [(k, v)]

/-- Go map lookup on an association list. -/
def assocFind {α : Type} (l : List (String × α)) (k : String) : Option α :=
  (l.find? (fun p => p.1 = k)).map (fun p => p.2)

/-- `resolverByTypeName`: registry lookup by type name. -/
def container.resolverByTypeName (c : container) (typeName : String) : Option resolver :=
  assocFind c.resolvers typeName

/-- `resolverByType`: registry lookup by the fully-qualified name of a type. -/
def container.resolverByType (c : container) (typ : GoType) : Option resolver :=
  c.resolverByTypeName (fullyQualifiedTypeName typ)

/-- `addResolver`: store a resolver under the fully-qualified type name. -/
def container.addResolver (c : container) (typ : GoType) (r : resolver) : container :=
  { c with resolvers := assocUpsert c.resolvers (fullyQualifiedTypeName typ) r }

/-- `addBinding`: store an interface binding under its binding key. -/
def container.addBinding (c : container) (p : interfaceBinding) : container :=
  { c with interfaceBindings :=
      assocUpsert c.interfaceBindings (bindingKeyFromTypeName p.interfaceName p.moduleKey) p }

/-- `getElementType`: unwrap a many-per-container slice type or a
one-per-module map type to its element type. -/
def container.getElementType (_c : container) (typ : GoType) : GoType :=
  if isManyPerContainerSliceType typ || isOnePerModuleMapType typ then typ.elemType
  else typ

/-- `findImplementingTypes`: scan the registry for resolvers whose produced
type is a non-interface type implementing the requested interface.  The Go
version collects the produced types into a map keyed by the type (so the
same type contributed by several registry entries counts once); the
association-list model keeps the first occurrence of each produced type, in
registry order. -/
def container.findImplementingTypes (c : container) (interfaceType : GoType) : List GoType :=
  (((c.resolvers.map (fun p => p.2.getType)).filter
    (fun t => t.kind != .kinterface && implements t interfaceType))).dedup

/-- `resolveInterfaceType`: implicit interface binding.  Zero candidate
implementations is not an error (`nil, nil`); exactly one is auto-bound and
cached under the interface type; two or more fail with
`ErrMultipleImplicitInterfaceBindings` carrying all candidates.  In the
single-candidate case the source looks the resolver up by the candidate's
own type name ignoring the lookup result flag; the `none` branch of that
lookup (unreachable while every resolver is registered under its produced
type name) returns no resolver. -/
def container.resolveInterfaceType (c : container) (typ : GoType) :
    Except Err (Option resolver × container) :=
  if typ.kind != .kinterface then .ok (none, c)
  else
    match c.findImplementingTypes typ with
    | [] => .ok (none, c)
    | [m] =>
      match c.resolverByType m with
      | some res => .ok (some res, c.addResolver typ res)
      | none => .ok (none, c)
    | ms => .error (.multipleImplicitBindings typ ms)

/-- Modelled from the spec: `getExplicitResolver` (its defining file is not
part of the source snapshot) — resolution precedence step 1: an explicit
`InterfaceBinding` for the type and scope, falling back to the global-scope
binding; a binding whose implementation type was never registered fails with
the missing-explicit-binding error (spec sections 4.2 and 7). -/
def container.getExplicitResolver (c : container) (typ : GoType) (key : Option ModuleKey) :
    Except Err (Option resolver) :=
  let tn := fullyQualifiedTypeName typ
  let scopedBinding := assocFind c.interfaceBindings (bindingKeyFromTypeName tn key)
  let b? := match scopedBinding with
    | some b => some b
    | none => assocFind c.interfaceBindings (bindingKeyFromTypeName tn none)
  match b? with
  | none => .ok none
  | some b =>
    match b.boundResolver with
    | some r => .ok (some r)
    | none =>
      match c.resolverByTypeName b.implTypeName with
      | some r => .ok (some r)
      | none =>
        .error (.noTypeForExplicitBinding b.implTypeName b.interfaceName
          (match b.moduleKey with | some k => k.name | none => ""))

/-- Modelled from the spec: `createContainerResolver` (its defining file is
not part of the source snapshot) — resolution precedence step 3: a
collection shape unwraps to the group resolver for its element type,
creating and registering the group resolver (under both the element type and
the slice type) on first use (spec section 4.2).  Scoped-map resolvers are
not modelled: no claim exercises them. -/
def container.createContainerResolver (c : container) (elemType typ : GoType) :
    Except Err (Option resolver × container) :=
  if isManyPerContainerSliceType typ then
    match c.resolverByType elemType with
    | some (.group gi st) =>
      let r := resolver.sliceGroup gi st
      .ok (some r, c.addResolver typ r)
    | some _ => .ok (none, c)
    | none =>
      let gi := c.groupResolvers.length
      let g : groupResolver :=
        { typ := elemType, sliceType := typ, idxsInValues := [], providers := []
          resolved := false, values := [] }
      let c1 := { c with groupResolvers := c.groupResolvers ++ [g] }
      let c2 := c1.addResolver elemType (.group gi typ)
      let r := resolver.sliceGroup gi typ
      .ok (some r, c2.addResolver typ r)
  else .ok (none, c)

/-- `getResolver`: resolution precedence — explicit binding, then the
registry entry for the exact type, then (for a collection/scope-map shape)
the group resolver for the element type, then implicit interface binding. -/
def container.getResolver (c : container) (typ : GoType) (key : Option ModuleKey) :
    Except Err (Option resolver × container) :=
  match c.getExplicitResolver typ key with
  | .error e => .error e
  | .ok (some r) => .ok (some r, c)
  | .ok none =>
    match c.resolverByType typ with
    | some r => .ok (some r, c)
    | none =>
      if c.getElementType typ = typ then c.resolveInterfaceType typ
      else c.createContainerResolver (c.getElementType typ) typ

/-! ## The active-call stack -/

/-- `checkCyclicDependency`: fail if the location is already in the active
caller set. -/
def container.checkCyclicDependency (c : container) (loc : Location) : Option Err :=
  if c.callerMap.contains loc then some (.cyclicDependency loc) else none

/-- `pushCaller`: record the location in the caller set and push it on the
caller stack. -/
def container.pushCaller (c : container) (loc : Location) : container :=
  { c with callerMap := loc :: c.callerMap, callerStack := c.callerStack ++ [loc] }

/-- `popCaller`: delete the location from the caller set and drop the last
stack entry. -/
def container.popCaller (c : container) (loc : Location) : container :=
  { c with callerMap := c.callerMap.erase loc, callerStack := c.callerStack.dropLast }

/-- `appendValue`: a slice-kinded contribution is spliced element by
element; any other value is appended as a single element. -/
def appendValue (slice : List Value) (value : Value) : List Value :=
  match value with
  | .coll elems => slice ++ elems
  | v => slice ++ [v]

/-- Pointwise update of a store at an index (writing through one of the
shared mutable records the Go code reaches by pointer). -/
def listModify {α : Type} (l : List α) (idx : Nat) (f : α → α) : List α :=
  match l, idx with
  | [], _ => []
  | x :: xs, 0 => f x :: xs
  | x :: xs, n + 1 => x :: listModify xs n f

/-- Update the `simpleProvider` store at an index. -/
def container.setProvider (c : container) (idx : Nat) (f : simpleProvider → simpleProvider) :
    container :=
  { c with simpleProviders := listModify c.simpleProviders idx f }

/-- Update the `groupResolver` store at an index. -/
def container.setGroup (c : container) (idx : Nat) (f : groupResolver → groupResolver) :
    container :=
  { c with groupResolvers := listModify c.groupResolvers idx f }

/-! ## The resolution interpreter

The mutually recursive resolution functions of the source are embedded as a
fuel-indexed family: `interpAt fuel` packages one function per source
function; fuel is consumed on the single back edge of the recursion (the
memoized provider invocation calling back into `call`), so any terminating
source execution is reproduced exactly for a large enough fuel, and fuel
exhaustion surfaces as the artificial error `Err.outOfFuel`. -/

structure InterpFns where
  callFn : container → providerDescriptor → Option ModuleKey →
    Except Err (List Value) × container
  resolveInputsFn : container → List providerInput → Option ModuleKey → Location →
    Except Err (List Value) × container
  resolveFn : container → providerInput → Option ModuleKey → Location →
    Except Err Value × container
  resolverResolveFn : container → resolver → Option ModuleKey → Location →
    Except Err Value × container
  providerResolveValuesFn : container → Nat → Except Err (List Value) × container
  groupLoopFn : container → List (Nat × Nat) → List Value →
    Except Err (List Value) × container
  groupResolveValuesFn : container → Nat → Except Err Unit × container

/-- Out-of-fuel bottom of the interpreter family. -/
def interpBottom : InterpFns where
  callFn := fun c _ _ => (.error .outOfFuel, c)
  resolveInputsFn := fun c _ _ _ => (.error .outOfFuel, c)
  resolveFn := fun c _ _ _ => (.error .outOfFuel, c)
  resolverResolveFn := fun c _ _ _ => (.error .outOfFuel, c)
  providerResolveValuesFn := fun c _ => (.error .outOfFuel, c)
  groupLoopFn := fun c _ _ => (.error .outOfFuel, c)
  groupResolveValuesFn := fun c _ => (.error .outOfFuel, c)

/-- One layer of the resolution functions; see the projections below for the
source function each local definition embeds. -/
def interpStep (prev : InterpFns) : InterpFns :=
  let spResolveValues : container → Nat → Except Err (List Value) × container :=
    fun c spIdx =>
      match c.simpleProviders[spIdx]? with
      | none => (.error (.internalError "no such provider"), c)
      | some sp =>
        if sp.called then (.ok sp.values, c)
        else
          match prev.callFn c sp.provider sp.moduleKey with
          | (.error e, c1) => (.error e, c1)
          | (.ok values, c1) =>
            (.ok values,
             c1.setProvider spIdx (fun s => { s with called := true, values := values }))
  let groupLoop : container → List (Nat × Nat) → List Value →
      Except Err (List Value) × container :=
    fun c pairs acc =>
      pairs.foldl (fun st pi =>
        match st with
        | (.error e, c) => (.error e, c)
        | (.ok acc, c) =>
          match spResolveValues c pi.1 with
          | (.error e, c1) => (.error e, c1)
          | (.ok values, c1) =>
            match values[pi.2]? with
            | none => (.error (.internalError "output index out of range"), c1)
            | some value => (.ok (appendValue acc value), c1)) (.ok acc, c)
  let groupResolveValues : container → Nat → Except Err Unit × container :=
    fun c grIdx =>
      match c.groupResolvers[grIdx]? with
      | none => (.error (.internalError "no such group resolver"), c)
      | some g =>
        match groupLoop c (g.providers.zip g.idxsInValues) [] with
        | (.error e, c1) => (.error e, c1)
        | (.ok result, c1) =>
          (.ok (), c1.setGroup grIdx (fun g => { g with values := result, resolved := true }))
  let resolverResolve : container → resolver → Option ModuleKey → Location →
      Except Err Value × container :=
    fun c r _mk _caller =>
      match r with
      | .simple spIdx _ idxInValues =>
        match spResolveValues c spIdx with
        | (.error e, c1) => (.error e, c1)
        | (.ok values, c1) =>
          match values[idxInValues]? with
          | none => (.error (.internalError "output index out of range"), c1)
          | some v => (.ok v, c1)
      | .sliceGroup grIdx _ =>
        match c.groupResolvers[grIdx]? with
        | none => (.error (.internalError "no such group resolver"), c)
        | some g =>
          if g.resolved then (.ok (.coll g.values), c)
          else
            match groupResolveValues c grIdx with
            | (.error e, c1) => (.error e, c1)
            | (.ok _, c1) =>
              match c1.groupResolvers[grIdx]? with
              | some g1 => (.ok (.coll g1.values), c1)
              | none => (.error (.internalError "no such group resolver"), c1)
      | .group grIdx _ =>
        match c.groupResolvers[grIdx]? with
        | none => (.error (.internalError "no such group resolver"), c)
        | some g => (.error (.invalidManyPerContainer g.typ g.sliceType), c)
  let resolve : container → providerInput → Option ModuleKey → Location →
      Except Err Value × container :=
    fun c inp mk caller =>
      match c.getResolver inp.typ mk with
      | .error e => (.error e, c)
      | .ok (some vr, c1) => resolverResolve c1 vr mk caller
      | .ok (none, c1) =>
        if inp.optional then (.ok (.zero inp.typ), c1)
        else (.error (.missingDependency inp.typ), c1)
  let resolveInputs : container → List providerInput → Option ModuleKey → Location →
      Except Err (List Value) × container :=
    fun c ins mk loc =>
      ins.foldl (fun st i =>
        match st with
        | (.error e, c) => (.error e, c)
        | (.ok vs, c) =>
          match resolve c i mk loc with
          | (.error e, c1) => (.error e, c1)
          | (.ok v, c1) => (.ok (vs ++ [v]), c1)) (.ok [], c)
  let call : container → providerDescriptor → Option ModuleKey →
      Except Err (List Value) × container :=
    fun c p mk =>
      match c.checkCyclicDependency p.location with
      | some e => (.error e, c)
      | none =>
        let c1 := c.pushCaller p.location
        match resolveInputs c1 p.inputs mk p.location with
        | (.error e, c2) => (.error e, c2.popCaller p.location)
        | (.ok inVals, c2) =>
          match p.fn inVals with
          | .error msg => (.error (.providerError p.location msg), c2.popCaller p.location)
          | .ok out => (.ok out, c2.popCaller p.location)
  { callFn := call
    resolveInputsFn := resolveInputs
    resolveFn := resolve
    resolverResolveFn := resolverResolve
    providerResolveValuesFn := spResolveValues
    groupLoopFn := groupLoop
    groupResolveValuesFn := groupResolveValues }

/-- The interpreter family at a given fuel. -/
def interpAt : Nat → InterpFns
  | 0 => interpBottom
  | fuel + 1 => interpStep (interpAt fuel)

/-- `container.call`: check for a cyclic dependency, push the caller
location, resolve the inputs left to right, invoke the provider function
(wrapping its error with the location), and pop the location on every exit
path (the source's deferred `popCaller`). -/
def call (fuel : Nat) : container → providerDescriptor → Option ModuleKey →
    Except Err (List Value) × container :=
  (interpAt fuel).callFn

/-- `container.resolveInputs`: resolve a provider's declared inputs in
order, stopping at the first error. -/
def resolveInputs (fuel : Nat) : container → List providerInput → Option ModuleKey →
    Location → Except Err (List Value) × container :=
  (interpAt fuel).resolveInputsFn

/-- Modelled from the spec: `container.resolve` (its defining file is not
part of the source snapshot) — look up the resolver for the input type via
`getResolver` and delegate to it; with no resolver, an optional input
receives the type's zero value (explicit absence, spec section 4.5) and a
required input fails with the missing-dependency error (spec section 7). -/
def resolve (fuel : Nat) : container → providerInput → Option ModuleKey → Location →
    Except Err Value × container :=
  (interpAt fuel).resolveFn

/-- Dispatch of the `resolver.resolve` interface method: `simple` is the
direct resolver (memoized provider invocation, then the value at the output
index — modelled from the spec, its defining file is not part of the source
snapshot); `sliceGroup` is `sliceGroupResolver.resolve` from `group.go`
(resolve the contributions once, then return the cached sequence); `group`
is `groupResolver.resolve` from `group.go` (always the
invalid-many-per-container error). -/
def resolverResolve (fuel : Nat) : container → resolver → Option ModuleKey → Location →
    Except Err Value × container :=
  (interpAt fuel).resolverResolveFn

/-- Modelled from the spec: `simpleProvider.resolveValues` (its defining
file is not part of the source snapshot) — at-most-once invocation: return
the cached output values if the provider was already called, otherwise
invoke it through `call` and cache the result (spec sections 3 and 8). -/
def simpleProvider.resolveValues (fuel : Nat) : container → Nat →
    Except Err (List Value) × container :=
  (interpAt fuel).providerResolveValuesFn

/-- The contribution loop of `groupResolver.resolveValues`: for each
(provider, output index) contribution in registration order, resolve the
provider's values and append the value at the output index via
`appendValue`. -/
def groupLoop (fuel : Nat) : container → List (Nat × Nat) → List Value →
    Except Err (List Value) × container :=
  (interpAt fuel).groupLoopFn

/-- `groupResolver.resolveValues`: run the contribution loop starting from
the empty slice, then store the result and mark the group resolved. -/
def groupResolver.resolveValues (fuel : Nat) : container → Nat →
    Except Err Unit × container :=
  (interpAt fuel).groupResolveValuesFn

/-- Modelled from the spec: the top-level resolution pass of
`container.build` (its defining file is not part of the source snapshot) —
resolve each requested output type in order, stopping at the first failure
(spec section 4.6); the invoker pass and the assignment into caller pointers
are not modelled. -/
def container.build (fuel : Nat) (c : container) (loc : Location) (outputs : List GoType) :
    Except Err (List Value) × container :=
  outputs.foldl (fun st t =>
    match st with
    | (.error e, c) => (.error e, c)
    | (.ok vs, c) =>
      match resolve fuel c { typ := t, optional := false } none loc with
      | (.error e, c1) => (.error e, c1)
      | (.ok v, c1) => (.ok (vs ++ [v]), c1)) (.ok [], c)

/-! ## Configuration-level registration (`config.go`) -/

/-- `ProvideInModule`: reject an empty module name before any registration
work; otherwise register the providers under the named module key.  The
registration behavior behind the non-empty branch (`provide` and its
callees, parts of which are not in the source snapshot) is abstracted as the
`provideImpl` parameter: the guard precedes it, so the empty-name behavior
is independent of it. -/
def ProvideInModule
    (provideImpl : container → Option ModuleKey → List providerDescriptor →
      Option Err × container)
    (moduleName : String) (providers : List providerDescriptor) (c : container) :
    Option Err × container :=
  if moduleName = "" then (some .emptyModuleName, c)
  else provideImpl c (some { name := moduleName }) providers

/-- `InvokeInModule`: same empty-module-name guard as `ProvideInModule`,
with the invoker-registration behavior abstracted as `invokeImpl`. -/
def InvokeInModule
    (invokeImpl : container → Option ModuleKey → List providerDescriptor →
      Option Err × container)
    (moduleName : String) (invokers : List providerDescriptor) (c : container) :
    Option Err × container :=
  if moduleName = "" then (some .emptyModuleName, c)
  else invokeImpl c (some { name := moduleName }) invokers

/-- `bindInterface`: a non-empty module name becomes a module key, an empty
one the global (nil) key; the binding is stored unconditionally and no error
is ever returned. -/
def bindInterface (c : container) (inTypeName outTypeName moduleName : String) :
    Option Err × container :=
  let mk : Option ModuleKey :=
    if moduleName ≠ "" then some { name := moduleName } else none
  (none, c.addBinding
    { interfaceName := inTypeName, implTypeName := outTypeName
      moduleKey := mk, boundResolver := none })

/-- `BindInterface`: global-scope interface binding. -/
def BindInterface (inTypeName outTypeName : String) (c : container) :
    Option Err × container :=
  bindInterface c inTypeName outTypeName ""

/-- `BindInterfaceInModule`: module-scoped interface binding (no emptiness
check on the module name). -/
def BindInterfaceInModule (moduleName inTypeName outTypeName : String) (c : container) :
    Option Err × container :=
  bindInterface c inTypeName outTypeName moduleName

/-! ## Claim-side predicates -/

/-- A named type passes the name validation: exported name, package path
without an "internal" segment. -/
def namedTypeOk (t : GoType) : Bool :=
  isExported t.name && !(isInternalPackage t.pkgPath)

mutual

/-- Claim reading of C8: every named type reachable through pointer, slice,
array, channel, map-key, map-value and function parameter/result positions,
descending through named types as well. -/
def reachAllNamed : GoType → List GoType
  | t@(.atom ..) => if isNamedType t then [t] else []
  | t@(.ptr _ _ e) => (if isNamedType t then [t] else []) ++ reachAllNamed e
  | t@(.slice _ _ e) => (if isNamedType t then [t] else []) ++ reachAllNamed e
  | t@(.array _ _ _ e) => (if isNamedType t then [t] else []) ++ reachAllNamed e
  | t@(.chan _ _ e) => (if isNamedType t then [t] else []) ++ reachAllNamed e
  | t@(.goMap _ _ k e) =>
    (if isNamedType t then [t] else []) ++ reachAllNamed k ++ reachAllNamed e
  | t@(.func _ _ ins outs) =>
    (if isNamedType t then [t] else []) ++ reachAllNamedList ins ++ reachAllNamedList outs

def reachAllNamedList : List GoType → List GoType
  | [] => []
  | t :: rest => reachAllNamed t ++ reachAllNamedList rest

end

mutual

/-- The named types `isExportedType` actually checks: reachability stops at
the first named type on each path (a named type is checked itself and its
components are not visited). -/
def reachNamed : GoType → List GoType
  | t@(.atom ..) => if isNamedType t then [t] else []
  | t@(.ptr _ _ e) => if isNamedType t then [t] else reachNamed e
  | t@(.slice _ _ e) => if isNamedType t then [t] else reachNamed e
  | t@(.array _ _ _ e) => if isNamedType t then [t] else reachNamed e
  | t@(.chan _ _ e) => if isNamedType t then [t] else reachNamed e
  | t@(.goMap _ _ k e) => if isNamedType t then [t] else reachNamed k ++ reachNamed e
  | t@(.func _ _ ins outs) =>
    if isNamedType t then [t] else reachNamedList ins ++ reachNamedList outs

def reachNamedList : List GoType → List GoType
  | [] => []
  | t :: rest => reachNamed t ++ reachNamedList rest

end

/-- What each validation error kind certifies about its offender. -/
def exportErrSound (e : ExportErr) : Prop :=
  match e with
  | .notExported u => isExported u.name = false
  | .internalPackage u => isExported u.name = true ∧ isInternalPackage u.pkgPath = true

/-- `checkNamedType` succeeds exactly on types passing `namedTypeOk`. -/
def checkNamedTypeOkIff (t : GoType) :
    checkNamedType t = .ok () ↔ namedTypeOk t = true := by
  unfold checkNamedType namedTypeOk
  by_cases h1 : isExported t.name <;> by_cases h2 : isInternalPackage t.pkgPath <;>
    simp [h1, h2]

/-- A `checkNamedType` error names the checked type, which fails
`namedTypeOk`, and is sound for its kind. -/
def checkNamedTypeErr (t : GoType) (e : ExportErr) (h : checkNamedType t = .error e) :
    e.offender = t ∧ namedTypeOk t = false ∧ exportErrSound e := by
  unfold checkNamedType at h
  by_cases h1 : isExported t.name <;> by_cases h2 : isInternalPackage t.pkgPath <;>
    simp [h1, h2] at h <;> subst h <;>
    simp [ExportErr.offender, exportErrSound, namedTypeOk, h1, h2]

mutual

/-- `isExportedType` succeeds exactly when every named type it reaches
(halting at named types) passes `namedTypeOk`. -/
def exportOkIffAux : ∀ t : GoType,
    (isExportedType t = .ok () ↔ ∀ u ∈ reachNamed t, namedTypeOk u = true)
  | .atom n p k ms => by
    by_cases hn : isNamedType (.atom n p k ms) <;>
      simp [isExportedType, reachNamed, hn, checkNamedTypeOkIff]
  | .ptr n p e => by
    by_cases hn : isNamedType (.ptr n p e)
    · simp [isExportedType, reachNamed, hn, checkNamedTypeOkIff]
    · simpa [isExportedType, reachNamed, hn] using exportOkIffAux e
  | .slice n p e => by
    by_cases hn : isNamedType (.slice n p e)
    · simp [isExportedType, reachNamed, hn, checkNamedTypeOkIff]
    · simpa [isExportedType, reachNamed, hn] using exportOkIffAux e
  | .array n p sz e => by
    by_cases hn : isNamedType (.array n p sz e)
    · simp [isExportedType, reachNamed, hn, checkNamedTypeOkIff]
    · simpa [isExportedType, reachNamed, hn] using exportOkIffAux e
  | .chan n p e => by
    by_cases hn : isNamedType (.chan n p e)
    · simp [isExportedType, reachNamed, hn, checkNamedTypeOkIff]
    · simpa [isExportedType, reachNamed, hn] using exportOkIffAux e
  | .goMap n p k e => by
    by_cases hn : isNamedType (.goMap n p k e)
    · simp [isExportedType, reachNamed, hn, checkNamedTypeOkIff]
    · have hk := exportOkIffAux k
      have he := exportOkIffAux e
      cases hik : isExportedType k with
      | error ek =>
        simp only [isExportedType, reachNamed, hn, if_false, Bool.false_eq_true, hik]
        constructor
        · intro hfalse; cases hfalse
        · intro hall
          have : isExportedType k = .ok () :=
            hk.mpr (fun u hu => hall u (List.mem_append_left _ hu))
          rw [hik] at this; cases this
      | ok u =>
        cases u
        simp only [isExportedType, reachNamed, hn, if_false, Bool.false_eq_true, hik]
        constructor
        · intro hee u hu
          rcases List.mem_append.mp hu with h | h
          · exact hk.mp hik u h
          · exact he.mp hee u h
        · intro hall
          exact he.mpr (fun u hu => hall u (List.mem_append_right _ hu))
  | .func n p ins outs => by
    by_cases hn : isNamedType (.func n p ins outs)
    · simp [isExportedType, reachNamed, hn, checkNamedTypeOkIff]
    · have hk := exportOkListAux ins
      have he := exportOkListAux outs
      cases hik : isExportedList ins with
      | error ek =>
        simp only [isExportedType, reachNamed, hn, if_false, Bool.false_eq_true, hik]
        constructor
        · intro hfalse; cases hfalse
        · intro hall
          have : isExportedList ins = .ok () :=
            hk.mpr (fun u hu => hall u (List.mem_append_left _ hu))
          rw [hik] at this; cases this
      | ok u =>
        cases u
        simp only [isExportedType, reachNamed, hn, if_false, Bool.false_eq_true, hik]
        constructor
        · intro hee u hu
          rcases List.mem_append.mp hu with h | h
          · exact hk.mp hik u h
          · exact he.mp hee u h
        · intro hall
          exact he.mpr (fun u hu => hall u (List.mem_append_right _ hu))

/-- List version of `exportOkIffAux` (the `checkFuncType` loops). -/
def exportOkListAux : ∀ l : List GoType,
    (isExportedList l = .ok () ↔ ∀ u ∈ reachNamedList l, namedTypeOk u = true)
  | [] => by simp [isExportedList, reachNamedList]
  | t :: rest => by
    have ht := exportOkIffAux t
    have hr := exportOkListAux rest
    cases hit : isExportedType t with
    | error et =>
      simp only [isExportedList, reachNamedList, hit]
      constructor
      · intro hfalse; cases hfalse
      · intro hall
        have : isExportedType t = .ok () :=
          ht.mpr (fun u hu => hall u (List.mem_append_left _ hu))
        rw [hit] at this; cases this
    | ok u =>
      cases u
      simp only [isExportedList, reachNamedList, hit]
      constructor
      · intro hre u hu
        rcases List.mem_append.mp hu with h | h
        · exact ht.mp hit u h
        · exact hr.mp hre u h
      · intro hall
        exact hr.mpr (fun u hu => hall u (List.mem_append_right _ hu))

end

mutual

/-- An `isExportedType` error names a named type reachable by the halting
traversal, which fails `namedTypeOk`; the error kind is sound. -/
def exportErrAux : ∀ (t : GoType) (e : ExportErr), isExportedType t = .error e →
    e.offender ∈ reachNamed t ∧ namedTypeOk e.offender = false ∧ exportErrSound e
  | .atom n p k ms, e => by
    intro h
    by_cases hn : isNamedType (.atom n p k ms) <;>
      simp only [isExportedType, hn, if_true, if_false, Bool.false_eq_true] at h
    · have hc := checkNamedTypeErr _ e h
      simp [reachNamed, hn, hc.1, hc.2.1, hc.2.2]
    · cases h
  | .ptr n p el, e => by
    intro h
    by_cases hn : isNamedType (.ptr n p el) <;>
      simp only [isExportedType, hn, if_true, if_false, Bool.false_eq_true] at h
    · have hc := checkNamedTypeErr _ e h
      simp [reachNamed, hn, hc.1, hc.2.1, hc.2.2]
    · simpa [reachNamed, hn] using exportErrAux el e h
  | .slice n p el, e => by
    intro h
    by_cases hn : isNamedType (.slice n p el) <;>
      simp only [isExportedType, hn, if_true, if_false, Bool.false_eq_true] at h
    · have hc := checkNamedTypeErr _ e h
      simp [reachNamed, hn, hc.1, hc.2.1, hc.2.2]
    · simpa [reachNamed, hn] using exportErrAux el e h
  | .array n p sz el, e => by
    intro h
    by_cases hn : isNamedType (.array n p sz el) <;>
      simp only [isExportedType, hn, if_true, if_false, Bool.false_eq_true] at h
    · have hc := checkNamedTypeErr _ e h
      simp [reachNamed, hn, hc.1, hc.2.1, hc.2.2]
    · simpa [reachNamed, hn] using exportErrAux el e h
  | .chan n p el, e => by
    intro h
    by_cases hn : isNamedType (.chan n p el) <;>
      simp only [isExportedType, hn, if_true, if_false, Bool.false_eq_true] at h
    · have hc := checkNamedTypeErr _ e h
      simp [reachNamed, hn, hc.1, hc.2.1, hc.2.2]
    · simpa [reachNamed, hn] using exportErrAux el e h
  | .goMap n p k el, e => by
    intro h
    by_cases hn : isNamedType (.goMap n p k el) <;>
      simp only [isExportedType, hn, if_true, if_false, Bool.false_eq_true] at h
    · have hc := checkNamedTypeErr _ e h
      simp [reachNamed, hn, hc.1, hc.2.1, hc.2.2]
    · cases hik : isExportedType k with
      | error ek =>
        rw [hik] at h
        cases h
        have := exportErrAux k e hik
        exact ⟨by simp [reachNamed, hn, List.mem_append]; exact Or.inl this.1,
          this.2.1, this.2.2⟩
      | ok u =>
        cases u
        rw [hik] at h
        have := exportErrAux el e h
        exact ⟨by simp [reachNamed, hn, List.mem_append]; exact Or.inr this.1,
          this.2.1, this.2.2⟩
  | .func n p ins outs, e => by
    intro h
    by_cases hn : isNamedType (.func n p ins outs) <;>
      simp only [isExportedType, hn, if_true, if_false, Bool.false_eq_true] at h
    · have hc := checkNamedTypeErr _ e h
      simp [reachNamed, hn, hc.1, hc.2.1, hc.2.2]
    · cases hik : isExportedList ins with
      | error ek =>
        rw [hik] at h
        cases h
        have := exportErrListAux ins e hik
        exact ⟨by simp [reachNamed, hn, List.mem_append]; exact Or.inl this.1,
          this.2.1, this.2.2⟩
      | ok u =>
        cases u
        rw [hik] at h
        have := exportErrListAux outs e h
        exact ⟨by simp [reachNamed, hn, List.mem_append]; exact Or.inr this.1,
          this.2.1, this.2.2⟩

/-- List version of `exportErrAux`. -/
def exportErrListAux : ∀ (l : List GoType) (e : ExportErr), isExportedList l = .error e →
    e.offender ∈ reachNamedList l ∧ namedTypeOk e.offender = false ∧ exportErrSound e
  | [], e => by intro h; simp [isExportedList] at h
  | t :: rest, e => by
    intro h
    simp only [isExportedList] at h
    cases hit : isExportedType t with
    | error et =>
      rw [hit] at h
      cases h
      have := exportErrAux t e hit
      exact ⟨by simp [reachNamedList, List.mem_append]; exact Or.inl this.1,
        this.2.1, this.2.2⟩
    | ok u =>
      cases u
      rw [hit] at h
      have := exportErrListAux rest e h
      exact ⟨by simp [reachNamedList, List.mem_append]; exact Or.inr this.1,
        this.2.1, this.2.2⟩

end

/-- The elements one contributed output value adds to a group: a
slice-kinded value is spliced, any other value contributes itself
(the defining clause of `appendValue`). -/
def spliced : Value → List Value
  | .coll elems => elems
  | v => [v]

/-- The sequence a group resolution should produce from per-provider output
values `vs`: for each (provider, output index) contribution in order, the
spliced value at the output index. -/
def groupContributions (vs : Nat → List Value) : List (Nat × Nat) → List Value
  | [] => []
  | pi :: rest => spliced ((vs pi.1).getD pi.2 (.coll [])) ++ groupContributions vs rest

/-- Provider `p` of the container is ready to contribute output values `vs`:
either already invoked with `vs` cached, or not yet invoked, with no
declared inputs, a function returning `vs`, and a registration site not
currently on the active call path. -/
def providerGives (c : container) (p : Nat) (vs : List Value) : Prop :=
  ∃ sp, c.simpleProviders[p]? = some sp ∧
    ((sp.called = true ∧ sp.values = vs) ∨
     (sp.called = false ∧ sp.provider.inputs = [] ∧ sp.provider.fn [] = .ok vs ∧
      c.callerMap.contains sp.provider.location = false))

/-- Two containers that differ only in the enumeration order of the resolver
registry (the layout of the Go map, which `findImplementingTypes` ranges
over), with well-formed (duplicate-free) registry keys. -/
def containerRel (c1 c2 : container) : Prop :=
  c1.resolvers.Perm c2.resolvers ∧ (c1.resolvers.map Prod.fst).Nodup ∧
  c1.interfaceBindings = c2.interfaceBindings ∧
  c1.simpleProviders = c2.simpleProviders ∧
  c1.groupResolvers = c2.groupResolvers ∧
  c1.callerStack = c2.callerStack ∧
  c1.callerMap = c2.callerMap

/-- Error equivalence across registry layouts: identical errors, except that
the ambiguity error may list its candidates in a different order. -/
def errRel : Err → Err → Prop
  | .multipleImplicitBindings i1 m1, .multipleImplicitBindings i2 m2 =>
    i1 = i2 ∧ m1.Perm m2
  | e1, e2 => e1 = e2

/-- Result equivalence: identical success values, equivalent errors. -/
def excRel {α : Type} : Except Err α → Except Err α → Prop
  | .ok a, .ok b => a = b
  | .error e1, .error e2 => errRel e1 e2
  | _, _ => False

/-- Equivalence of a (result, container) pair. -/
def outRel {α : Type} (o1 o2 : Except Err α × container) : Prop :=
  excRel o1.1 o2.1 ∧ containerRel o1.2 o2.2

/-! ## Concrete scenario data -/

def intType : GoType := .atom "int" "" .kint []

def float64Type : GoType := .atom "float64" "" .kfloat64 []

def topLoc : Location := { name := "main", pkg := "example.com/app", file := "main.go", line := 1 }

def locF : Location := { name := "F", pkg := "example.com/app", file := "app.go", line := 10 }

def locG : Location := { name := "G", pkg := "example.com/app", file := "app.go", line := 20 }

/-- `f: int -> float64` of the cycle scenario. -/
def descF : providerDescriptor :=
  { location := locF
    inputs := [{ typ := intType, optional := false }]
    outputs := [float64Type]
    fn := fun _ => .ok [Value.vint 0] }

/-- `g: float64 -> int` of the cycle scenario. -/
def descG : providerDescriptor :=
  { location := locG
    inputs := [{ typ := float64Type, optional := false }]
    outputs := [intType]
    fn := fun _ => .ok [Value.vint 1] }

/-- Container after registering `f: int -> float64` and `g: float64 -> int`. -/
def cycleContainer : container :=
  { resolvers := [("float64", .simple 0 float64Type 0), ("int", .simple 1 intType 0)]
    interfaceBindings := []
    simpleProviders :=
      [{ provider := descF, moduleKey := none, called := false, values := [] },
       { provider := descG, moduleKey := none, called := false, values := [] }]
    groupResolvers := []
    callerStack := []
    callerMap := [] }

def duckType : GoType := .atom "Duck" "example.com/pond" .kinterface ["quack"]

def mallardType : GoType := .atom "Mallard" "example.com/pond" .kstruct ["quack"]

def canvasbackType : GoType := .atom "Canvasback" "example.com/pond" .kstruct ["quack"]

def mallardResolver : resolver := .simple 0 mallardType 0

def canvasbackResolver : resolver := .simple 1 canvasbackType 0

/-- Registry with a single implementation of `Duck`. -/
def ifaceOneContainer : container :=
  { newContainer with resolvers := [("example.com/pond/pond.Mallard", mallardResolver)] }

/-- Registry with two implementations of `Duck`. -/
def ifaceTwoContainer : container :=
  { newContainer with resolvers :=
      [("example.com/pond/pond.Mallard", mallardResolver),
       ("example.com/pond/pond.Canvasback", canvasbackResolver)] }

/-- A many-per-container element type (carries the marker method). -/
def commandType : GoType :=
  .atom "Command" "example.com/app" .kstruct ["IsManyPerContainerType"]

/-- Its unnamed slice form. -/
def commandSliceType : GoType := .slice "" "" commandType

def locP1 : Location := { name := "P1", pkg := "example.com/app", file := "app.go", line := 30 }

def locP2 : Location := { name := "P2", pkg := "example.com/app", file := "app.go", line := 40 }

/-- P1 contributes the collection ["a", "b"] (a slice-kinded output). -/
def descP1 : providerDescriptor :=
  { location := locP1
    inputs := []
    outputs := [commandSliceType]
    fn := fun _ => .ok [Value.coll [.vstr "a", .vstr "b"]] }

/-- P2 contributes the single value "c". -/
def descP2 : providerDescriptor :=
  { location := locP2
    inputs := []
    outputs := [commandType]
    fn := fun _ => .ok [Value.vstr "c"] }

/-- Container after registering P1 then P2 as contributors to the
`Command` group. -/
def groupContainer : container :=
  { resolvers :=
      [("example.com/app/app.Command", .group 0 commandSliceType),
       ("example.com/app/[]app.Command", .sliceGroup 0 commandSliceType)]
    interfaceBindings := []
    simpleProviders :=
      [{ provider := descP1, moduleKey := none, called := false, values := [] },
       { provider := descP2, moduleKey := none, called := false, values := [] }]
    groupResolvers :=
      [{ typ := commandType, sliceType := commandSliceType
         idxsInValues := [0, 0], providers := [0, 1], resolved := false, values := [] }]
    callerStack := []
    callerMap := [] }

/-- The state after the first successful resolution of the command slice. -/
def groupContainerAfter : container :=
  (resolverResolve 5 groupContainer (.sliceGroup 0 commandSliceType) none topLoc).2

/-- Two copies of one registry (int and float64 providers, already invoked)
whose association lists are laid out in opposite orders. -/
def permContainerA : container :=
  { resolvers := [("float64", .simple 0 float64Type 0), ("int", .simple 1 intType 0)]
    interfaceBindings := []
    simpleProviders :=
      [{ provider := descF, moduleKey := none, called := true, values := [Value.vint 7] },
       { provider := descG, moduleKey := none, called := true, values := [Value.vint 8] }]
    groupResolvers := []
    callerStack := []
    callerMap := [] }

def permContainerB : container :=
  { permContainerA with resolvers :=
      [("int", .simple 1 intType 0), ("float64", .simple 0 float64Type 0)] }

/-- The loop body of `resolveInputs` (one input resolved and appended). -/
def resolveStep (fuel : Nat) (mk : Option ModuleKey) (loc : Location)
    (st : Except Err (List Value) × container) (i : providerInput) :
    Except Err (List Value) × container :=
  match st with
  | (.error e, c) => (.error e, c)
  | (.ok vs, c) =>
    match resolve fuel c i mk loc with
    | (.error e, c1) => (.error e, c1)
    | (.ok v, c1) => (.ok (vs ++ [v]), c1)

/-- The loop body of `groupResolver.resolveValues` (one contribution
resolved and appended via `appendValue`). -/
def groupStep (fuel : Nat) (st : Except Err (List Value) × container) (pi : Nat × Nat) :
    Except Err (List Value) × container :=
  match st with
  | (.error e, c) => (.error e, c)
  | (.ok acc, c) =>
    match simpleProvider.resolveValues fuel c pi.1 with
    | (.error e, c1) => (.error e, c1)
    | (.ok values, c1) =>
      match values[pi.2]? with
      | none => (.error (.internalError "output index out of range"), c1)
      | some value => (.ok (appendValue acc value), c1)

/-- The loop body of `container.build` (one requested type resolved and
appended). -/
def buildStep (fuel : Nat) (loc : Location)
    (st : Except Err (List Value) × container) (t : GoType) :
    Except Err (List Value) × container :=
  match st with
  | (.error e, c) => (.error e, c)
  | (.ok vs, c) =>
    match resolve fuel c { typ := t, optional := false } none loc with
    | (.error e, c1) => (.error e, c1)
    | (.ok v, c1) => (.ok (vs ++ [v]), c1)

/-! ## Unfolding equations of the interpreter -/

theorem call_succ (fuel : Nat) (c : container) (p : providerDescriptor)
    (mk : Option ModuleKey) :
    call (fuel + 1) c p mk =
      match c.checkCyclicDependency p.location with
      | some e => (.error e, c)
      | none =>
        match resolveInputs (fuel + 1) (c.pushCaller p.location) p.inputs mk p.location with
        | (.error e, c2) => (.error e, c2.popCaller p.location)
        | (.ok inVals, c2) =>
          match p.fn inVals with
          | .error msg => (.error (.providerError p.location msg), c2.popCaller p.location)
          | .ok out => (.ok out, c2.popCaller p.location) := rfl

theorem resolveInputs_eq (fuel : Nat) (c : container) (ins : List providerInput)
    (mk : Option ModuleKey) (loc : Location) :
    resolveInputs (fuel + 1) c ins mk loc =
      ins.foldl (resolveStep (fuel + 1) mk loc) (.ok [], c) := rfl

theorem resolve_succ (fuel : Nat) (c : container) (inp : providerInput)
    (mk : Option ModuleKey) (caller : Location) :
    resolve (fuel + 1) c inp mk caller =
      match c.getResolver inp.typ mk with
      | .error e => (.error e, c)
      | .ok (some vr, c1) => resolverResolve (fuel + 1) c1 vr mk caller
      | .ok (none, c1) =>
        if inp.optional then (.ok (.zero inp.typ), c1)
        else (.error (.missingDependency inp.typ), c1) := rfl

theorem resolverResolve_succ (fuel : Nat) (c : container) (r : resolver)
    (mk : Option ModuleKey) (caller : Location) :
    resolverResolve (fuel + 1) c r mk caller =
      match r with
      | .simple spIdx _ idxInValues =>
        match simpleProvider.resolveValues (fuel + 1) c spIdx with
        | (.error e, c1) => (.error e, c1)
        | (.ok values, c1) =>
          match values[idxInValues]? with
          | none => (.error (.internalError "output index out of range"), c1)
          | some v => (.ok v, c1)
      | .sliceGroup grIdx _ =>
        match c.groupResolvers[grIdx]? with
        | none => (.error (.internalError "no such group resolver"), c)
        | some g =>
          if g.resolved then (.ok (.coll g.values), c)
          else
            match groupResolver.resolveValues (fuel + 1) c grIdx with
            | (.error e, c1) => (.error e, c1)
            | (.ok _, c1) =>
              match c1.groupResolvers[grIdx]? with
              | some g1 => (.ok (.coll g1.values), c1)
              | none => (.error (.internalError "no such group resolver"), c1)
      | .group grIdx _ =>
        match c.groupResolvers[grIdx]? with
        | none => (.error (.internalError "no such group resolver"), c)
        | some g => (.error (.invalidManyPerContainer g.typ g.sliceType), c) := rfl

theorem spResolveValues_succ (fuel : Nat) (c : container) (spIdx : Nat) :
    simpleProvider.resolveValues (fuel + 1) c spIdx =
      match c.simpleProviders[spIdx]? with
      | none => (.error (.internalError "no such provider"), c)
      | some sp =>
        if sp.called then (.ok sp.values, c)
        else
          match call fuel c sp.provider sp.moduleKey with
          | (.error e, c1) => (.error e, c1)
          | (.ok values, c1) =>
            (.ok values,
             c1.setProvider spIdx (fun s => { s with called := true, values := values })) := rfl

theorem groupLoop_eq (fuel : Nat) (c : container) (pairs : List (Nat × Nat))
    (acc : List Value) :
    groupLoop (fuel + 1) c pairs acc =
      pairs.foldl (groupStep (fuel + 1)) (.ok acc, c) := rfl

theorem groupResolveValues_succ (fuel : Nat) (c : container) (grIdx : Nat) :
    groupResolver.resolveValues (fuel + 1) c grIdx =
      match c.groupResolvers[grIdx]? with
      | none => (.error (.internalError "no such group resolver"), c)
      | some g =>
        match groupLoop (fuel + 1) c (g.providers.zip g.idxsInValues) [] with
        | (.error e, c1) => (.error e, c1)
        | (.ok result, c1) =>
          (.ok (),
           c1.setGroup grIdx (fun g => { g with values := result, resolved := true })) := rfl

theorem build_eq (fuel : Nat) (c : container) (loc : Location) (outputs : List GoType) :
    container.build fuel c loc outputs =
      outputs.foldl (buildStep fuel loc) (.ok [], c) := rfl

/-! ## Basic lemmas about the container operations -/

@[simp] theorem addResolver_callerStack (c : container) (t : GoType) (r : resolver) :
    (c.addResolver t r).callerStack = c.callerStack := rfl

@[simp] theorem addResolver_callerMap (c : container) (t : GoType) (r : resolver) :
    (c.addResolver t r).callerMap = c.callerMap := rfl

@[simp] theorem addResolver_simpleProviders (c : container) (t : GoType) (r : resolver) :
    (c.addResolver t r).simpleProviders = c.simpleProviders := rfl

@[simp] theorem addResolver_groupResolvers (c : container) (t : GoType) (r : resolver) :
    (c.addResolver t r).groupResolvers = c.groupResolvers := rfl

@[simp] theorem addResolver_interfaceBindings (c : container) (t : GoType) (r : resolver) :
    (c.addResolver t r).interfaceBindings = c.interfaceBindings := rfl

@[simp] theorem setProvider_callerStack (c : container) (i : Nat)
    (f : simpleProvider → simpleProvider) :
    (c.setProvider i f).callerStack = c.callerStack := rfl

@[simp] theorem setProvider_callerMap (c : container) (i : Nat)
    (f : simpleProvider → simpleProvider) :
    (c.setProvider i f).callerMap = c.callerMap := rfl

@[simp] theorem setProvider_groupResolvers (c : container) (i : Nat)
    (f : simpleProvider → simpleProvider) :
    (c.setProvider i f).groupResolvers = c.groupResolvers := rfl

@[simp] theorem setProvider_resolvers (c : container) (i : Nat)
    (f : simpleProvider → simpleProvider) :
    (c.setProvider i f).resolvers = c.resolvers := rfl

@[simp] theorem setGroup_callerStack (c : container) (i : Nat)
    (f : groupResolver → groupResolver) :
    (c.setGroup i f).callerStack = c.callerStack := rfl

@[simp] theorem setGroup_callerMap (c : container) (i : Nat)
    (f : groupResolver → groupResolver) :
    (c.setGroup i f).callerMap = c.callerMap := rfl

@[simp] theorem setGroup_simpleProviders (c : container) (i : Nat)
    (f : groupResolver → groupResolver) :
    (c.setGroup i f).simpleProviders = c.simpleProviders := rfl

@[simp] theorem setGroup_resolvers (c : container) (i : Nat)
    (f : groupResolver → groupResolver) :
    (c.setGroup i f).resolvers = c.resolvers := rfl

@[simp] theorem pushCaller_callerStack (c : container) (loc : Location) :
    (c.pushCaller loc).callerStack = c.callerStack ++ [loc] := rfl

@[simp] theorem pushCaller_callerMap (c : container) (loc : Location) :
    (c.pushCaller loc).callerMap = loc :: c.callerMap := rfl

theorem listModify_getElem_self {α : Type} (l : List α) (i : Nat) (f : α → α) :
    (listModify l i f)[i]? = (l[i]?).map f := by
  induction l generalizing i with
  | nil => simp [listModify]
  | cons x xs ih =>
    cases i with
    | zero => simp [listModify]
    | succ n => simpa [listModify] using ih n

theorem listModify_getElem_ne {α : Type} (l : List α) (i j : Nat) (f : α → α)
    (h : j ≠ i) : (listModify l i f)[j]? = l[j]? := by
  induction l generalizing i j with
  | nil => simp [listModify]
  | cons x xs ih =>
    cases i with
    | zero =>
      cases j with
      | zero => exact absurd rfl h
      | succ m => simp [listModify]
    | succ n =>
      cases j with
      | zero => simp [listModify]
      | succ m =>
        have : m ≠ n := fun hc => h (by simp [hc])
        simpa [listModify] using ih n m this

theorem assocFind_upsert_self {α : Type} (l : List (String × α)) (k : String) (v : α) :
    assocFind (assocUpsert l k v) k = some v := by
  induction l with
  | nil => simp [assocFind, assocUpsert]
  | cons p l ih =>
    by_cases hp : p.1 = k
    · simp [assocFind, assocUpsert, hp]
    · by_cases hl : l.any (fun q => q.1 = k)
      · have hmap : assocUpsert (p :: l) k v =
            p :: l.map (fun q => if q.1 = k then (k, v) else q) := by
          simp [assocUpsert, hp, hl]
        have ihm : assocFind (assocUpsert l k v) k = some v := ih
        rw [hmap]
        have : assocFind (l.map (fun q => if q.1 = k then (k, v) else q)) k = some v := by
          simpa [assocUpsert, hl] using ihm
        simpa [assocFind, List.find?_cons, hp] using this
      · have happ : assocUpsert (p :: l) k v = p :: (l ++ [(k, v)]) := by
          simp [assocUpsert, hp, hl]
        have ihm : assocFind (assocUpsert l k v) k = some v := ih
        rw [happ]
        have : assocFind (l ++ [(k, v)]) k = some v := by
          simpa [assocUpsert, hl] using ihm
        simpa [assocFind, List.find?_cons, hp] using this

theorem find?_map_replace {α : Type} (l : List (String × α)) (k k' : String) (v : α)
    (h : k' ≠ k) :
    (l.map (fun q => if q.1 = k then (k, v) else q)).find? (fun q => decide (q.1 = k'))
      = l.find? (fun q => decide (q.1 = k')) := by
  induction l with
  | nil => rfl
  | cons p l ih =>
    by_cases hp : p.1 = k
    · have h1 : ¬ (k = k') := fun hc => h hc.symm
      have hp' : ¬ (p.1 = k') := by rw [hp]; exact h1
      simp [List.find?_cons, hp, hp', h1, ih]
    · by_cases hpk : p.1 = k' <;> simp [List.find?_cons, hp, hpk, h, ih]

theorem assocFind_upsert_ne {α : Type} (l : List (String × α)) (k k' : String) (v : α)
    (h : k' ≠ k) : assocFind (assocUpsert l k v) k' = assocFind l k' := by
  by_cases hl : l.any (fun p => p.1 = k)
  · have hmap : assocUpsert l k v = l.map (fun q => if q.1 = k then (k, v) else q) := by
      simp [assocUpsert, hl]
    rw [hmap]
    unfold assocFind
    rw [find?_map_replace l k k' v h]
  · have happ : assocUpsert l k v = l ++ [(k, v)] := by
      simp [assocUpsert, hl]
    rw [happ]
    unfold assocFind
    have h1 : ¬ (k = k') := fun hc => h hc.symm
    rw [List.find?_append]
    cases hfind : l.find? (fun p => decide (p.1 = k')) <;>
      simp [List.find?_cons, h1, hfind]

theorem assocFind_none_iff_any {α : Type} (l : List (String × α)) (k : String) :
    assocFind l k = none ↔ l.any (fun p => p.1 = k) = false := by
  induction l with
  | nil => simp [assocFind]
  | cons p l ih =>
    by_cases hp : p.1 = k <;> simp [assocFind, List.find?_cons, hp] at ih ⊢ <;>
      simpa [assocFind] using ih

theorem assocUpsert_of_not_mem {α : Type} (l : List (String × α)) (k : String) (v : α)
    (h : l.any (fun p => p.1 = k) = false) : assocUpsert l k v = l ++ [(k, v)] := by
  simp [assocUpsert, h]

theorem popCaller_pushCaller (c : container) (loc : Location) :
    (c.pushCaller loc).popCaller loc = c := by
  simp [container.pushCaller, container.popCaller, List.erase_cons_head,
    List.dropLast_concat]

/-! ## Frame lemmas: the caller stack and caller set -/

theorem resolveInterfaceType_frame (c : container) (typ : GoType) (r : Option resolver)
    (c' : container) (h : c.resolveInterfaceType typ = .ok (r, c')) :
    c'.callerStack = c.callerStack ∧ c'.callerMap = c.callerMap ∧
      c'.simpleProviders = c.simpleProviders ∧ c'.groupResolvers = c.groupResolvers := by
  unfold container.resolveInterfaceType at h
  split at h
  · cases h; exact ⟨rfl, rfl, rfl, rfl⟩
  · split at h
    · cases h; exact ⟨rfl, rfl, rfl, rfl⟩
    · split at h
      · cases h; exact ⟨rfl, rfl, rfl, rfl⟩
      · cases h; exact ⟨rfl, rfl, rfl, rfl⟩
    · cases h

theorem createContainerResolver_frame (c : container) (elemType typ : GoType)
    (r : Option resolver) (c' : container)
    (h : c.createContainerResolver elemType typ = .ok (r, c')) :
    c'.callerStack = c.callerStack ∧ c'.callerMap = c.callerMap ∧
      c'.simpleProviders = c.simpleProviders := by
  unfold container.createContainerResolver at h
  split at h
  · split at h
    · cases h; exact ⟨rfl, rfl, rfl⟩
    · cases h; exact ⟨rfl, rfl, rfl⟩
    · cases h; exact ⟨rfl, rfl, rfl⟩
  · cases h; exact ⟨rfl, rfl, rfl⟩

theorem getResolver_frame (c : container) (typ : GoType) (key : Option ModuleKey)
    (r : Option resolver) (c' : container) (h : c.getResolver typ key = .ok (r, c')) :
    c'.callerStack = c.callerStack ∧ c'.callerMap = c.callerMap ∧
      c'.simpleProviders = c.simpleProviders := by
  unfold container.getResolver at h
  split at h
  · cases h
  · cases h; exact ⟨rfl, rfl, rfl⟩
  · split at h
    · cases h; exact ⟨rfl, rfl, rfl⟩
    · split at h
      · have := resolveInterfaceType_frame c typ r c' h
        exact ⟨this.1, this.2.1, this.2.2.1⟩
      · exact createContainerResolver_frame c _ typ r c' h

/-- Caller-stack invariance of a fold whose step preserves the caller state. -/
theorem foldl_caller_eq {γ β : Type}
    (step : Except Err γ × container → β → Except Err γ × container)
    (hstep : ∀ st b, ((step st b).2.callerStack = st.2.callerStack ∧
      (step st b).2.callerMap = st.2.callerMap)) :
    ∀ (l : List β) (init : Except Err γ × container),
      ((l.foldl step init).2.callerStack = init.2.callerStack ∧
        (l.foldl step init).2.callerMap = init.2.callerMap) := by
  intro l
  induction l with
  | nil => intro init; exact ⟨rfl, rfl⟩
  | cons b l ih =>
    intro init
    have h1 := hstep init b
    have h2 := ih (step init b)
    exact ⟨h2.1.trans h1.1, h2.2.trans h1.2⟩

/-- All resolution functions leave the caller stack and caller set exactly
as they found them (the deferred `popCaller` in `call` undoes `pushCaller`
on every exit path). -/
theorem caller_preserved : ∀ fuel : Nat,
    (∀ c p mk, ((call fuel c p mk).2.callerStack = c.callerStack ∧
      (call fuel c p mk).2.callerMap = c.callerMap))
  ∧ (∀ c ins mk loc, ((resolveInputs fuel c ins mk loc).2.callerStack = c.callerStack ∧
      (resolveInputs fuel c ins mk loc).2.callerMap = c.callerMap))
  ∧ (∀ c inp mk loc, ((resolve fuel c inp mk loc).2.callerStack = c.callerStack ∧
      (resolve fuel c inp mk loc).2.callerMap = c.callerMap))
  ∧ (∀ c r mk loc, ((resolverResolve fuel c r mk loc).2.callerStack = c.callerStack ∧
      (resolverResolve fuel c r mk loc).2.callerMap = c.callerMap))
  ∧ (∀ c i, ((simpleProvider.resolveValues fuel c i).2.callerStack = c.callerStack ∧
      (simpleProvider.resolveValues fuel c i).2.callerMap = c.callerMap))
  ∧ (∀ c pairs acc, ((groupLoop fuel c pairs acc).2.callerStack = c.callerStack ∧
      (groupLoop fuel c pairs acc).2.callerMap = c.callerMap))
  ∧ (∀ c i, ((groupResolver.resolveValues fuel c i).2.callerStack = c.callerStack ∧
      (groupResolver.resolveValues fuel c i).2.callerMap = c.callerMap)) := by
  intro fuel
  induction fuel with
  | zero =>
    refine ⟨fun c p mk => ⟨rfl, rfl⟩, fun c ins mk loc => ⟨rfl, rfl⟩,
      fun c inp mk loc => ⟨rfl, rfl⟩, fun c r mk loc => ⟨rfl, rfl⟩,
      fun c i => ⟨rfl, rfl⟩, fun c pairs acc => ⟨rfl, rfl⟩, fun c i => ⟨rfl, rfl⟩⟩
  | succ fuel ih =>
    obtain ⟨ihcall, -, -, -, -, -, -⟩ := ih
    have hsp : ∀ c i, ((simpleProvider.resolveValues (fuel + 1) c i).2.callerStack
        = c.callerStack ∧
        (simpleProvider.resolveValues (fuel + 1) c i).2.callerMap = c.callerMap) := by
      intro c i
      rw [spResolveValues_succ]
      cases hsome : c.simpleProviders[i]? with
      | none => simp [hsome]
      | some sp =>
        simp only [hsome]
        by_cases hc : sp.called
        · simp [hc]
        · simp only [hc, if_false, Bool.false_eq_true]
          rcases hcv : call fuel c sp.provider sp.moduleKey with ⟨res, c1⟩
          have hpres := ihcall c sp.provider sp.moduleKey
          rw [hcv] at hpres
          cases res with
          | error e => simp only [hcv]; exact hpres
          | ok vals =>
            simp only [hcv]
            exact ⟨by simpa using hpres.1, by simpa using hpres.2⟩
    have hgl : ∀ c pairs acc, ((groupLoop (fuel + 1) c pairs acc).2.callerStack
        = c.callerStack ∧
        (groupLoop (fuel + 1) c pairs acc).2.callerMap = c.callerMap) := by
      intro c pairs acc
      rw [groupLoop_eq]
      refine foldl_caller_eq (groupStep (fuel + 1)) ?_ pairs (.ok acc, c)
      intro st b
      rcases st with ⟨res, c'⟩
      cases res with
      | error e => exact ⟨rfl, rfl⟩
      | ok acc' =>
        unfold groupStep
        rcases hcv : simpleProvider.resolveValues (fuel + 1) c' b.1 with ⟨res2, c1⟩
        have hpres := hsp c' b.1
        rw [hcv] at hpres
        cases res2 with
        | error e => simpa [hcv] using hpres
        | ok vals =>
          cases hidx : vals[b.2]? with
          | none => simpa [hcv, hidx] using hpres
          | some v => simpa [hcv, hidx] using hpres
    have hgrv : ∀ c i, ((groupResolver.resolveValues (fuel + 1) c i).2.callerStack
        = c.callerStack ∧
        (groupResolver.resolveValues (fuel + 1) c i).2.callerMap = c.callerMap) := by
      intro c i
      rw [groupResolveValues_succ]
      cases hsome : c.groupResolvers[i]? with
      | none => simp [hsome]
      | some g =>
        simp only [hsome]
        rcases hcv : groupLoop (fuel + 1) c (g.providers.zip g.idxsInValues) []
          with ⟨res, c1⟩
        have hpres := hgl c (g.providers.zip g.idxsInValues) []
        rw [hcv] at hpres
        cases res with
        | error e => simpa [hcv] using hpres
        | ok result =>
          exact ⟨by simpa [hcv] using hpres.1, by simpa [hcv] using hpres.2⟩
    have hrr : ∀ c r mk loc, ((resolverResolve (fuel + 1) c r mk loc).2.callerStack
        = c.callerStack ∧
        (resolverResolve (fuel + 1) c r mk loc).2.callerMap = c.callerMap) := by
      intro c r mk loc
      rw [resolverResolve_succ]
      cases r with
      | simple spIdx t idx =>
        rcases hcv : simpleProvider.resolveValues (fuel + 1) c spIdx with ⟨res, c1⟩
        have hpres := hsp c spIdx
        rw [hcv] at hpres
        cases res with
        | error e => simpa [hcv] using hpres
        | ok vals =>
          cases hidx : vals[idx]? with
          | none => simpa [hcv, hidx] using hpres
          | some v => simpa [hcv, hidx] using hpres
      | sliceGroup grIdx st =>
        cases hsome : c.groupResolvers[grIdx]? with
        | none => simp [hsome]
        | some g =>
          simp only [hsome]
          by_cases hres : g.resolved
          · simp [hres]
          · simp only [hres, if_false, Bool.false_eq_true]
            rcases hcv : groupResolver.resolveValues (fuel + 1) c grIdx with ⟨res, c1⟩
            have hpres := hgrv c grIdx
            rw [hcv] at hpres
            cases res with
            | error e => simpa [hcv] using hpres
            | ok u =>
              cases hsome1 : c1.groupResolvers[grIdx]? with
              | none => simpa [hcv, hsome1] using hpres
              | some g1 => simpa [hcv, hsome1] using hpres
      | group grIdx st =>
        cases hsome : c.groupResolvers[grIdx]? with
        | none => simp [hsome]
        | some g => simp [hsome]
    have hres : ∀ c inp mk loc, ((resolve (fuel + 1) c inp mk loc).2.callerStack
        = c.callerStack ∧
        (resolve (fuel + 1) c inp mk loc).2.callerMap = c.callerMap) := by
      intro c inp mk loc
      rw [resolve_succ]
      rcases hcv : c.getResolver inp.typ mk with e | ⟨vr, c1⟩
      · exact ⟨rfl, rfl⟩
      · cases vr with
        | some r =>
          have hf := getResolver_frame c inp.typ mk (some r) c1 hcv
          have := hrr c1 r mk loc
          exact ⟨this.1.trans hf.1, this.2.trans hf.2.1⟩
        | none =>
          have hf := getResolver_frame c inp.typ mk none c1 hcv
          by_cases hopt : inp.optional <;> simp only [hopt, if_true, if_false,
            Bool.false_eq_true] <;> exact ⟨hf.1, hf.2.1⟩
    have hri : ∀ c ins mk loc, ((resolveInputs (fuel + 1) c ins mk loc).2.callerStack
        = c.callerStack ∧
        (resolveInputs (fuel + 1) c ins mk loc).2.callerMap = c.callerMap) := by
      intro c ins mk loc
      rw [resolveInputs_eq]
      refine foldl_caller_eq (resolveStep (fuel + 1) mk loc) ?_ ins (.ok [], c)
      intro st b
      rcases st with ⟨res, c'⟩
      cases res with
      | error e => exact ⟨rfl, rfl⟩
      | ok vs =>
        unfold resolveStep
        rcases hcv : resolve (fuel + 1) c' b mk loc with ⟨res2, c1⟩
        have hpres := hres c' b mk loc
        rw [hcv] at hpres
        cases res2 with
        | error e => simpa [hcv] using hpres
        | ok v => simpa [hcv] using hpres
    have hcall : ∀ c p mk, ((call (fuel + 1) c p mk).2.callerStack = c.callerStack ∧
        (call (fuel + 1) c p mk).2.callerMap = c.callerMap) := by
      intro c p mk
      rw [call_succ]
      cases hcyc : c.checkCyclicDependency p.location with
      | some e => exact ⟨rfl, rfl⟩
      | none =>
        rcases hcv : resolveInputs (fuel + 1) (c.pushCaller p.location) p.inputs mk
          p.location with ⟨res, c2⟩
        have hpres := hri (c.pushCaller p.location) p.inputs mk p.location
        rw [hcv] at hpres
        have hstack : c2.callerStack = c.callerStack ++ [p.location] := by
          simpa using hpres.1
        have hmap : c2.callerMap = p.location :: c.callerMap := by
          simpa using hpres.2
        have hpop : (c2.popCaller p.location).callerStack = c.callerStack ∧
            (c2.popCaller p.location).callerMap = c.callerMap := by
          unfold container.popCaller
          constructor
          · simp [hstack, List.dropLast_concat]
          · simp [hmap, List.erase_cons_head]
        cases res with
        | error e => simpa [hcv] using hpop
        | ok inVals =>
          cases hfn : p.fn inVals with
          | error msg => simpa [hcv, hfn] using hpop
          | ok out => simpa [hcv, hfn] using hpop
    exact ⟨hcall, hri, hres, hrr, hsp, hgl, hgrv⟩

/-! ## Claim theorems -/

/-- C7: for every invocation of `call`, the active caller stack and the
caller membership set are restored to exactly their pre-call state when
`call` returns — on success and on every failure path (cyclic-dependency
error, input-resolution error, or an error returned by the provider
function itself), since the theorem quantifies over all containers,
providers and outcomes. -/
theorem c7_call_restores_caller_state (fuel : Nat) (c : container)
    (p : providerDescriptor) (mk : Option ModuleKey) :
    (call fuel c p mk).2.callerStack = c.callerStack ∧
    (call fuel c p mk).2.callerMap = c.callerMap :=
  (caller_preserved fuel).1 c p mk

/-- C1: if the descriptor's location is already in the container's active
caller set, `call` returns the cyclic-dependency error with the container
unchanged — the result does not depend on the provider's function or inputs,
so neither is consulted; and concretely, the configuration
`f : int -> float64, g : float64 -> int` resolved for `int` fails with the
cyclic-dependency error. -/
theorem c1_cycle_detection :
    (∀ (fuel : Nat) (c : container) (p : providerDescriptor) (mk : Option ModuleKey),
      c.callerMap.contains p.location = true →
      call (fuel + 1) c p mk = (.error (.cyclicDependency p.location), c))
  ∧ (resolve 10 cycleContainer { typ := intType, optional := false } none topLoc).1
      = .error (.cyclicDependency locG) := by
  constructor
  · intro fuel c p mk h
    have h1 : p.location ∈ c.callerMap := by simpa using h
    rw [call_succ]
    simp [container.checkCyclicDependency, h1]
  · decide

/-- C1 witness: a call whose location is already on the active caller set
fails with the cyclic-dependency error and leaves the container unchanged. -/
theorem c1_cycle_detection_witness :
    call 3 { cycleContainer with callerMap := [locG] } descG none
      = (.error (.cyclicDependency locG),
         { cycleContainer with callerMap := [locG] }) := by
  have h := c1_cycle_detection.1 2 { cycleContainer with callerMap := [locG] }
    descG none (by decide)
  exact h

/-- C6: resolving the bare element type of a many-per-container type through
its `groupResolver` always fails, for every container, module key and caller
location, with the error that names the slice form to request instead; no
value is produced and the container is unchanged.  The second conjunct shows
the rendered message of that error for the concrete `Command` group
directing the caller to `[]app.Command`. -/
theorem c6_bare_group_type_always_errors :
    (∀ (fuel : Nat) (c : container) (grIdx : Nat) (g : groupResolver) (st : GoType)
      (mk : Option ModuleKey) (caller : Location),
      c.groupResolvers[grIdx]? = some g →
      resolverResolve (fuel + 1) c (.group grIdx st) mk caller
        = (.error (.invalidManyPerContainer g.typ g.sliceType), c))
  ∧ Err.message (.invalidManyPerContainer commandType commandSliceType)
      = "app.Command is a many-per-container type and cannot be used as an input value, use []app.Command instead: invalid many-per-container type usage" := by
  constructor
  · intro fuel c grIdx g st mk caller h
    rw [resolverResolve_succ]
    simp [h]
  · decide

/-- C6 witness: resolving the bare `Command` type on the concrete group
container fails with the invalid-many-per-container error naming the slice
form. -/
theorem c6_bare_group_type_always_errors_witness :
    resolverResolve 4 groupContainer (.group 0 commandSliceType) none topLoc
      = (.error (.invalidManyPerContainer commandType commandSliceType), groupContainer) := by
  have h := c6_bare_group_type_always_errors.1 3 groupContainer 0
    { typ := commandType, sliceType := commandSliceType, idxsInValues := [0, 0]
      providers := [0, 1], resolved := false, values := [] }
    commandSliceType none topLoc rfl
  exact h

/-- C4 counterexample: `addResolver` stores an entry under the bare
fully-qualified type name, which is not of the BindingKey form
`fullTypeName ++ ";" ++ scopeName-or-empty` for any scope — refuting the
claim that every registry entry is keyed jointly by type name and scope
name and never by the type name alone. -/
theorem c4_registry_key_counterexample :
    (container.addResolver newContainer (.atom "Foo" "example.com/foo" .kstruct [])
        (.simple 0 (.atom "Foo" "example.com/foo" .kstruct []) 0)).resolvers
      = [("example.com/foo/foo.Foo",
          .simple 0 (.atom "Foo" "example.com/foo" .kstruct []) 0)]
    ∧ bindingKeyFromTypeName "example.com/foo/foo.Foo" none ≠ "example.com/foo/foo.Foo"
    ∧ bindingKeyFromTypeName "example.com/foo/foo.Foo" (some { name := "m" })
        ≠ "example.com/foo/foo.Foo" := by
  refine ⟨by decide, by decide, by decide⟩

/-- C4 (amended): the resolver registry is keyed by the fully-qualified type
name alone (`addResolver` stores and `resolverByType` looks up with no scope
component), while the BindingKey `fullTypeName ++ ";" ++ scopeName-or-empty`
keys the interface-binding table (`addBinding`). -/
theorem c4_amended_registry_keys :
    (∀ (c : container) (typ : GoType) (r : resolver),
      (c.addResolver typ r).resolverByTypeName (fullyQualifiedTypeName typ) = some r)
  ∧ (∀ (c : container) (b : interfaceBinding),
      assocFind (c.addBinding b).interfaceBindings
          (bindingKeyFromTypeName b.interfaceName b.moduleKey) = some b)
  ∧ (∀ (c : container) (typ : GoType),
      c.resolverByType typ = c.resolverByTypeName (fullyQualifiedTypeName typ)) := by
  refine ⟨?_, ?_, fun c typ => rfl⟩
  · intro c typ r
    exact assocFind_upsert_self c.resolvers (fullyQualifiedTypeName typ) r
  · intro c b
    exact assocFind_upsert_self c.interfaceBindings
      (bindingKeyFromTypeName b.interfaceName b.moduleKey) b

/-- C10: applying `ProvideInModule` or `InvokeInModule` with an empty module
name fails with the error rendered "expected non-empty module name" and
leaves the container unchanged (for every possible registration behavior
behind the guard), whereas `BindInterfaceInModule` with an empty module name
does not fail: it behaves identically to `BindInterface`, storing the
binding under the global (nil) scope key. -/
theorem c10_empty_module_name :
    (∀ (provideImpl : container → Option ModuleKey → List providerDescriptor →
        Option Err × container) (ps : List providerDescriptor) (c : container),
      ProvideInModule provideImpl "" ps c = (some .emptyModuleName, c))
  ∧ (∀ (invokeImpl : container → Option ModuleKey → List providerDescriptor →
        Option Err × container) (invs : List providerDescriptor) (c : container),
      InvokeInModule invokeImpl "" invs c = (some .emptyModuleName, c))
  ∧ Err.message .emptyModuleName = "expected non-empty module name"
  ∧ (∀ (inTN outTN : String) (c : container),
      BindInterfaceInModule "" inTN outTN c = BindInterface inTN outTN c)
  ∧ (∀ (inTN outTN : String) (c : container),
      (BindInterfaceInModule "" inTN outTN c).1 = none ∧
      assocFind (BindInterfaceInModule "" inTN outTN c).2.interfaceBindings
          (bindingKeyFromTypeName inTN none)
        = some { interfaceName := inTN, implTypeName := outTN
                 moduleKey := none, boundResolver := none }) := by
  refine ⟨fun _ _ _ => rfl, fun _ _ _ => rfl, rfl, fun _ _ _ => rfl, ?_⟩
  intro inTN outTN c
  refine ⟨rfl, ?_⟩
  simpa [BindInterfaceInModule, bindInterface, container.addBinding] using
    assocFind_upsert_self c.interfaceBindings (bindingKeyFromTypeName inTN none)
      { interfaceName := inTN, implTypeName := outTN
        moduleKey := none, boundResolver := none }

/-- C2: for an interface type with no explicit binding and no directly
registered resolver, `getResolver` reaches the implicit-binding scan and:
the candidate list is exactly the set of produced non-interface types
implementing the interface; zero candidates yields no resolver and no
error; exactly one candidate yields the resolver registered for it, cached
under the interface type for future lookups; two or more candidates fail
with the ambiguity error carrying every matching implementation type. -/
theorem c2_implicit_interface_binding (c : container) (typ : GoType)
    (key : Option ModuleKey)
    (hIface : typ.kind = .kinterface)
    (hNoExp : c.getExplicitResolver typ key = .ok none)
    (hNoDirect : c.resolverByType typ = none) :
    (∀ t, t ∈ c.findImplementingTypes typ ↔
      (t.kind ≠ .kinterface ∧ implements t typ = true ∧
        ∃ p ∈ c.resolvers, (p.2).getType = t))
  ∧ (c.findImplementingTypes typ = [] → c.getResolver typ key = .ok (none, c))
  ∧ (∀ m r, c.findImplementingTypes typ = [m] → c.resolverByType m = some r →
      c.getResolver typ key = .ok (some r, c.addResolver typ r) ∧
      (c.addResolver typ r).resolverByType typ = some r)
  ∧ (2 ≤ (c.findImplementingTypes typ).length →
      c.getResolver typ key
        = .error (.multipleImplicitBindings typ (c.findImplementingTypes typ))) := by
  have helem : c.getElementType typ = typ := by
    simp [container.getElementType, isManyPerContainerSliceType, isOnePerModuleMapType,
      hIface]
  have hkey : c.getResolver typ key = c.resolveInterfaceType typ := by
    unfold container.getResolver
    rw [hNoExp, hNoDirect, helem]
    simp
  refine ⟨?_, ?_, ?_, ?_⟩
  · intro t
    constructor
    · intro ht
      have h1 := List.mem_dedup.mp ht
      have h2 := List.mem_filter.mp h1
      obtain ⟨p, hp, hpt⟩ := List.mem_map.mp h2.1
      have h3 := h2.2
      simp only [Bool.and_eq_true, bne_iff_ne, ne_eq] at h3
      exact ⟨h3.1, h3.2, p, hp, hpt⟩
    · intro ⟨hkind, himpl, p, hp, hpt⟩
      refine List.mem_dedup.mpr (List.mem_filter.mpr ⟨List.mem_map.mpr ⟨p, hp, hpt⟩, ?_⟩)
      simp only [Bool.and_eq_true, bne_iff_ne, ne_eq]
      exact ⟨hkind, himpl⟩
  · intro hm
    rw [hkey]
    unfold container.resolveInterfaceType
    rw [hm]
    simp [hIface]
  · intro m r hm hr
    constructor
    · rw [hkey]
      unfold container.resolveInterfaceType
      rw [hm]
      simp [hIface, hr]
    · exact assocFind_upsert_self c.resolvers (fullyQualifiedTypeName typ) r
  · intro hlen
    rw [hkey]
    unfold container.resolveInterfaceType
    rcases hm : c.findImplementingTypes typ with - | ⟨a, - | ⟨b, rest⟩⟩
    · rw [hm] at hlen; simp at hlen
    · rw [hm] at hlen; simp at hlen
    · simp [hIface]

/-- C2 witness: with a single `Duck` implementation (`Mallard`) registered
and no explicit binding, `getResolver` returns the Mallard resolver and
caches it under the interface type. -/
theorem c2_implicit_interface_binding_witness :
    container.getResolver ifaceOneContainer duckType none
        = .ok (some mallardResolver,
               container.addResolver ifaceOneContainer duckType mallardResolver)
      ∧ (container.addResolver ifaceOneContainer duckType mallardResolver).resolverByType
          duckType = some mallardResolver := by
  exact (c2_implicit_interface_binding ifaceOneContainer duckType none
    (by decide) (by decide) (by decide)).2.2.1 mallardType mallardResolver
    (by decide) (by decide)

/-- C8 counterexample: a named slice type with an unexported element type.
`isExportedType` accepts it (the check stops at the named slice), yet the
unexported named element is reachable through the slice position, so the
claimed equivalence with "every named type reachable through
pointer/slice/array/chan/map/function positions is exported and
non-internal" fails. -/
theorem c8_export_check_counterexample :
    isExportedType (.slice "MySlice" "example.com/foo"
        (.atom "hidden" "example.com/foo" .kstruct [])) = .ok ()
  ∧ (GoType.atom "hidden" "example.com/foo" .kstruct []) ∈
      reachAllNamed (.slice "MySlice" "example.com/foo"
        (.atom "hidden" "example.com/foo" .kstruct []))
  ∧ namedTypeOk (.atom "hidden" "example.com/foo" .kstruct []) = false := by
  refine ⟨by decide, by decide, by decide⟩

/-- C8 (amended): `isExportedType` succeeds if and only if every named type
reachable through pointer, slice, array, channel, map-key, map-value and
function parameter/result positions — where the traversal stops at the
first named type on each path, so components of a named composite are not
visited — has an exported name and a package path with no "internal"
segment; otherwise it fails with a type-not-exported or internal-package
error identifying an offending named type from that traversal. -/
theorem c8_export_check (t : GoType) :
    (isExportedType t = .ok () ↔ ∀ u ∈ reachNamed t, namedTypeOk u = true)
  ∧ (∀ e, isExportedType t = .error e →
      e.offender ∈ reachNamed t ∧ namedTypeOk e.offender = false ∧ exportErrSound e) :=
  ⟨exportOkIffAux t, fun e h => exportErrAux t e h⟩

/-- C8 witness: an unnamed slice of an unexported named struct fails
validation with the not-exported error naming that struct, which the
theorem certifies is a reachable named type failing the check. -/
theorem c8_export_check_witness :
    (GoType.atom "hidden" "example.com/foo" .kstruct []) ∈
      reachNamed (.slice "" "" (.atom "hidden" "example.com/foo" .kstruct []))
    ∧ namedTypeOk (.atom "hidden" "example.com/foo" .kstruct []) = false
    ∧ exportErrSound (.notExported (.atom "hidden" "example.com/foo" .kstruct [])) := by
  exact (c8_export_check (.slice "" "" (.atom "hidden" "example.com/foo" .kstruct []))).2
    (.notExported (.atom "hidden" "example.com/foo" .kstruct [])) (by decide)

/-! ## Group resolution lemmas -/

theorem appendValue_eq_spliced (acc : List Value) (v : Value) :
    appendValue acc v = acc ++ spliced v := by
  cases v <;> rfl

theorem getElem?_getD {α : Type} :
    ∀ (l : List α) (i : Nat) (d : α), i < l.length → l[i]? = some (l.getD i d)
  | [], i, d, h => by simp at h
  | x :: xs, 0, d, h => by simp [List.getD]
  | x :: xs, n + 1, d, h => by
    simpa [List.getD] using getElem?_getD xs n d (by simpa using h)

theorem call_nil_inputs (fuel : Nat) (c : container) (p : providerDescriptor)
    (mk : Option ModuleKey) (hin : p.inputs = [])
    (hloc : c.callerMap.contains p.location = false) :
    call (fuel + 1) c p mk =
      ((match p.fn [] with
        | .error msg => .error (.providerError p.location msg)
        | .ok out => .ok out), c) := by
  rw [call_succ]
  have h1 : c.checkCyclicDependency p.location = none := by
    have h0 : p.location ∉ c.callerMap := by simpa using hloc
    unfold container.checkCyclicDependency
    simp [h0]
  rw [h1, hin]
  have h2 : resolveInputs (fuel + 1) (c.pushCaller p.location) [] mk p.location
      = (.ok [], c.pushCaller p.location) := by
    rw [resolveInputs_eq]; rfl
  rw [h2]
  cases hfn : p.fn [] with
  | error msg => simp [hfn, popCaller_pushCaller]
  | ok out => simp [hfn, popCaller_pushCaller]

/-- A provider ready to contribute `vs` resolves to `vs` (invoking and
caching on first use), touching neither the group store, the caller set,
nor the registry, and leaving every ready provider ready. -/
theorem providerGives_resolveValues (fuel : Nat) (c : container) (i : Nat)
    (vs : List Value) (h : providerGives c i vs) :
    ∃ c', simpleProvider.resolveValues (fuel + 2) c i = (.ok vs, c')
      ∧ c'.groupResolvers = c.groupResolvers
      ∧ c'.callerMap = c.callerMap
      ∧ c'.resolvers = c.resolvers
      ∧ (∀ j w, providerGives c j w → providerGives c' j w) := by
  obtain ⟨sp, hsp, hcase⟩ := h
  rcases hcase with ⟨hc, hv⟩ | ⟨hc, hin, hfn, hloc⟩
  · refine ⟨c, ?_, rfl, rfl, rfl, fun j w hw => hw⟩
    rw [spResolveValues_succ, hsp]
    simp [hc, hv]
  · refine ⟨c.setProvider i (fun s => { s with called := true, values := vs }),
      ?_, by simp, by simp, by simp, ?_⟩
    · rw [spResolveValues_succ, hsp]
      simp only [hc, if_false, Bool.false_eq_true]
      rw [call_nil_inputs fuel c sp.provider sp.moduleKey hin hloc, hfn]
    · intro j w hw
      obtain ⟨spj, hspj, hcj⟩ := hw
      by_cases hji : j = i
      · subst hji
        rw [hsp] at hspj
        cases hspj
        have hwv : w = vs := by
          rcases hcj with ⟨hc', -⟩ | ⟨-, -, hfn', -⟩
          · rw [hc] at hc'; cases hc'
          · rw [hfn] at hfn'; cases hfn'; rfl
        subst hwv
        refine ⟨{ sp with called := true, values := w }, ?_, Or.inl ⟨rfl, rfl⟩⟩
        show (listModify c.simpleProviders j _)[j]? = _
        rw [listModify_getElem_self, hsp]
        rfl
      · refine ⟨spj, ?_, ?_⟩
        · show (listModify c.simpleProviders i _)[j]? = _
          rw [listModify_getElem_ne _ _ _ _ hji]
          exact hspj
        · simpa using hcj

/-- The contribution loop produces, in registration order, the spliced
values of the ready providers, appended to the accumulator. -/
theorem groupLoop_contributions (fuel : Nat) (vs : Nat → List Value) :
    ∀ (pairs : List (Nat × Nat)) (c : container) (acc : List Value),
    (∀ pi ∈ pairs, providerGives c pi.1 (vs pi.1)) →
    (∀ pi ∈ pairs, pi.2 < (vs pi.1).length) →
    ∃ c', groupLoop (fuel + 2) c pairs acc
        = (.ok (acc ++ groupContributions vs pairs), c')
      ∧ c'.groupResolvers = c.groupResolvers
      ∧ c'.callerMap = c.callerMap := by
  intro pairs
  induction pairs with
  | nil =>
    intro c acc _ _
    exact ⟨c, by rw [groupLoop_eq]; simp [groupContributions], rfl, rfl⟩
  | cons pi rest ih =>
    intro c acc hprov hidx
    obtain ⟨c1, hsp, hgr1, hcm1, hres1, hpres⟩ :=
      providerGives_resolveValues fuel c pi.1 (vs pi.1)
        (hprov pi (List.mem_cons_self pi rest))
    have hv : (vs pi.1)[pi.2]? = some ((vs pi.1).getD pi.2 (.coll [])) :=
      getElem?_getD (vs pi.1) pi.2 (.coll []) (hidx pi (List.mem_cons_self pi rest))
    have hhead : groupStep (fuel + 2) (.ok acc, c) pi
        = (.ok (appendValue acc ((vs pi.1).getD pi.2 (.coll []))), c1) := by
      unfold groupStep
      dsimp only
      rw [hsp]
      dsimp only
      rw [hv]
    obtain ⟨c2, hloop, hgr2, hcm2⟩ := ih c1 (appendValue acc ((vs pi.1).getD pi.2 (.coll [])))
      (fun pj hj => hpres pj.1 (vs pj.1) (hprov pj (List.mem_cons_of_mem pi hj)))
      (fun pj hj => hidx pj (List.mem_cons_of_mem pi hj))
    refine ⟨c2, ?_, hgr2.trans hgr1, hcm2.trans hcm1⟩
    rw [groupLoop_eq, List.foldl_cons, hhead]
    rw [groupLoop_eq] at hloop
    rw [hloop]
    rw [appendValue_eq_spliced]
    simp [groupContributions, List.append_assoc]

/-- C3: resolving the slice form of a many-per-container type returns the
contributions of all registered providers in registration order, with a
slice-kinded contributed value spliced element by element rather than
appended as one element; the group caches exactly that sequence. -/
theorem c3_group_ordering_and_splicing (fuel : Nat) (c : container) (grIdx : Nat)
    (g : groupResolver) (st : GoType) (vs : Nat → List Value)
    (mk : Option ModuleKey) (caller : Location)
    (hg : c.groupResolvers[grIdx]? = some g)
    (hres : g.resolved = false)
    (hprov : ∀ p ∈ g.providers, providerGives c p (vs p))
    (hidx : ∀ pi ∈ g.providers.zip g.idxsInValues, pi.2 < (vs pi.1).length) :
    (resolverResolve (fuel + 2) c (.sliceGroup grIdx st) mk caller).1
        = .ok (.coll (groupContributions vs (g.providers.zip g.idxsInValues)))
    ∧ (resolverResolve (fuel + 2) c
        (.sliceGroup grIdx st) mk caller).2.groupResolvers[grIdx]?
        = some { g with
            resolved := true,
            values := groupContributions vs (g.providers.zip g.idxsInValues) } := by
  obtain ⟨c1, hloop, hgr1, -⟩ := groupLoop_contributions fuel vs
    (g.providers.zip g.idxsInValues) c []
    (fun pi hp => hprov pi.1 (List.mem_zip hp).1) hidx
  have hgrv : groupResolver.resolveValues (fuel + 2) c grIdx
      = (.ok (), c1.setGroup grIdx (fun g0 => { g0 with
          values := [] ++ groupContributions vs (g.providers.zip g.idxsInValues),
          resolved := true })) := by
    rw [groupResolveValues_succ]
    rw [hg]
    dsimp only
    rw [hloop]
  have hentry : (c1.setGroup grIdx (fun g0 => { g0 with
        values := [] ++ groupContributions vs (g.providers.zip g.idxsInValues),
        resolved := true })).groupResolvers[grIdx]?
      = some { g with
          resolved := true,
          values := groupContributions vs (g.providers.zip g.idxsInValues) } := by
    show (listModify c1.groupResolvers grIdx _)[grIdx]? = _
    rw [listModify_getElem_self, hgr1, hg]
    simp
  have hmain : resolverResolve (fuel + 2) c (.sliceGroup grIdx st) mk caller
      = (.ok (.coll (groupContributions vs (g.providers.zip g.idxsInValues))),
         c1.setGroup grIdx (fun g0 => { g0 with
           values := [] ++ groupContributions vs (g.providers.zip g.idxsInValues),
           resolved := true })) := by
    rw [resolverResolve_succ]
    dsimp only
    rw [hg]
    simp only [hres, Bool.false_eq_true, if_false]
    rw [hgrv]
    dsimp only
    rw [hentry]
  rw [hmain, hentry]
  exact ⟨rfl, rfl⟩

/-- C3 witness: P1 contributing the collection ["a", "b"] registered before
P2 contributing "c" resolves the slice form to exactly ["a", "b", "c"]. -/
theorem c3_group_ordering_and_splicing_witness :
    (resolverResolve 5 groupContainer (.sliceGroup 0 commandSliceType) none topLoc).1
      = .ok (.coll [Value.vstr "a", Value.vstr "b", Value.vstr "c"]) := by
  have h := (c3_group_ordering_and_splicing 3 groupContainer 0
    { typ := commandType, sliceType := commandSliceType, idxsInValues := [0, 0]
      providers := [0, 1], resolved := false, values := [] }
    commandSliceType
    (fun p => if p = 0 then [Value.coll [.vstr "a", .vstr "b"]] else [Value.vstr "c"])
    none topLoc rfl rfl
    (by
      intro p hp
      fin_cases hp
      · exact ⟨{ provider := descP1, moduleKey := none, called := false, values := [] },
          rfl, Or.inr ⟨rfl, rfl, rfl, rfl⟩⟩
      · exact ⟨{ provider := descP2, moduleKey := none, called := false, values := [] },
          rfl, Or.inr ⟨rfl, rfl, rfl, rfl⟩⟩)
    (by decide)).1
  exact h.trans (by decide)

/-- After a successful `groupResolver.resolveValues`, the group entry is
marked resolved. -/
theorem groupResolveValues_sets_resolved (fuel : Nat) (c c1 : container) (grIdx : Nat)
    (u : Unit) (h : groupResolver.resolveValues (fuel + 1) c grIdx = (.ok u, c1)) :
    ∀ g1, c1.groupResolvers[grIdx]? = some g1 → g1.resolved = true := by
  intro g1 hg1
  rw [groupResolveValues_succ] at h
  cases hg : c.groupResolvers[grIdx]? with
  | none => rw [hg] at h; simp at h
  | some g =>
    rw [hg] at h
    dsimp only at h
    rcases hloop : groupLoop (fuel + 1) c (g.providers.zip g.idxsInValues) []
      with ⟨res, cl⟩
    rw [hloop] at h
    cases res with
    | error e => simp at h
    | ok result =>
      simp only [Prod.mk.injEq] at h
      obtain ⟨-, h2⟩ := h
      subst h2
      simp only [container.setGroup] at hg1
      rw [listModify_getElem_self] at hg1
      cases hgl : cl.groupResolvers[grIdx]? with
      | none => rw [hgl] at hg1; cases hg1
      | some gl =>
        rw [hgl] at hg1
        cases hg1
        rfl

/-- C5: group resolution is idempotent — after a first successful resolution
of the slice form, every subsequent resolution returns the same cached
sequence with the container unchanged (so no contributing provider is
re-invoked), for any later fuel, module key and caller. -/
theorem c5_group_idempotent (fuel fuel2 : Nat) (c : container) (grIdx : Nat)
    (st : GoType) (mk mk2 : Option ModuleKey) (caller caller2 : Location)
    (v : Value) (c' : container)
    (h : resolverResolve (fuel + 1) c (.sliceGroup grIdx st) mk caller = (.ok v, c')) :
    resolverResolve (fuel2 + 1) c' (.sliceGroup grIdx st) mk2 caller2 = (.ok v, c') := by
  rw [resolverResolve_succ] at h
  dsimp only at h
  cases hg : c.groupResolvers[grIdx]? with
  | none => rw [hg] at h; simp at h
  | some g =>
    rw [hg] at h
    dsimp only at h
    by_cases hr : g.resolved
    · simp only [hr, if_true] at h
      simp only [Prod.mk.injEq, Except.ok.injEq] at h
      obtain ⟨h1, h2⟩ := h
      subst h1; subst h2
      rw [resolverResolve_succ]
      dsimp only
      rw [hg]
      dsimp only
      simp [hr]
    · simp only [hr, if_false, Bool.false_eq_true] at h
      rcases hgrv : groupResolver.resolveValues (fuel + 1) c grIdx with ⟨res, c1⟩
      rw [hgrv] at h
      cases res with
      | error e => simp at h
      | ok u =>
        dsimp only at h
        cases hg1 : c1.groupResolvers[grIdx]? with
        | none => rw [hg1] at h; simp at h
        | some g1 =>
          rw [hg1] at h
          simp only [Prod.mk.injEq, Except.ok.injEq] at h
          obtain ⟨h1, h2⟩ := h
          subst h1; subst h2
          have hres1 := groupResolveValues_sets_resolved fuel c c1 grIdx u hgrv g1 hg1
          rw [resolverResolve_succ]
          dsimp only
          rw [hg1]
          dsimp only
          simp [hres1]

/-- C5 witness: after the first resolution of the command slice, a second
resolution returns the identical cached sequence and leaves the container
unchanged. -/
theorem c5_group_idempotent_witness :
    resolverResolve 7 groupContainerAfter (.sliceGroup 0 commandSliceType) none topLoc
      = (.ok (.coll [Value.vstr "a", Value.vstr "b", Value.vstr "c"]),
         groupContainerAfter) := by
  have h1 : (resolverResolve 5 groupContainer
      (.sliceGroup 0 commandSliceType) none topLoc).1
      = .ok (.coll [Value.vstr "a", Value.vstr "b", Value.vstr "c"]) := by decide
  have h : resolverResolve 5 groupContainer (.sliceGroup 0 commandSliceType) none topLoc
      = (.ok (.coll [Value.vstr "a", Value.vstr "b", Value.vstr "c"]),
         groupContainerAfter) := by
    rw [← h1]
    rfl
  exact c5_group_idempotent 4 6 groupContainer 0 commandSliceType none none
    topLoc topLoc _ _ h



/-! ## Registry-layout independence (claim C9) -/

theorem errRel_refl (e : Err) : errRel e e := by
  cases e <;> simp [errRel]

theorem pair_eq_of_keyNodup {α : Type} (l : List (String × α))
    (hnd : (l.map Prod.fst).Nodup) (p q : String × α)
    (hp : p ∈ l) (hq : q ∈ l) (hpq : p.1 = q.1) : p = q := by
  induction l with
  | nil => cases hp
  | cons x xs ih =>
    simp only [List.map_cons, List.nodup_cons] at hnd
    rcases List.mem_cons.mp hp with hpx | hp'
    · rcases List.mem_cons.mp hq with hqx | hq'
      · rw [hpx, hqx]
      · exfalso
        apply hnd.1
        subst hpx
        rw [hpq]
        exact List.mem_map_of_mem Prod.fst hq'
    · rcases List.mem_cons.mp hq with hqx | hq'
      · exfalso
        apply hnd.1
        subst hqx
        rw [← hpq]
        exact List.mem_map_of_mem Prod.fst hp'
      · exact ih hnd.2 hp' hq'

theorem assocFind_perm {α : Type} (l1 l2 : List (String × α)) (hp : l1.Perm l2)
    (hnd : (l1.map Prod.fst).Nodup) (k : String) :
    assocFind l1 k = assocFind l2 k := by
  unfold assocFind
  cases hf1 : l1.find? (fun p => decide (p.1 = k)) with
  | none =>
    have hf2 : l2.find? (fun p => decide (p.1 = k)) = none := by
      apply List.find?_eq_none.mpr
      intro p hp2
      have := List.find?_eq_none.mp hf1 p (hp.symm.subset hp2)
      simpa using this
    rw [hf2]
  | some p =>
    have hp1 : p ∈ l1 := List.mem_of_find?_eq_some hf1
    have hpk : p.1 = k := by simpa using List.find?_some hf1
    have hp2 : p ∈ l2 := hp.subset hp1
    cases hf2 : l2.find? (fun p => decide (p.1 = k)) with
    | none =>
      exfalso
      have := List.find?_eq_none.mp hf2 p hp2
      simp at this
      exact this hpk
    | some q =>
      have hq2 : q ∈ l2 := List.mem_of_find?_eq_some hf2
      have hqk : q.1 = k := by simpa using List.find?_some hf2
      have hq1 : q ∈ l1 := hp.symm.subset hq2
      rw [pair_eq_of_keyNodup l1 hnd p q hp1 hq1 (by rw [hpk, hqk])]

theorem assocUpsert_perm {α : Type} (l1 l2 : List (String × α)) (hp : l1.Perm l2)
    (hnd : (l1.map Prod.fst).Nodup) (k : String) (v : α) :
    (assocUpsert l1 k v).Perm (assocUpsert l2 k v)
    ∧ ((assocUpsert l1 k v).map Prod.fst).Nodup := by
  have hany : l1.any (fun p => p.1 = k) = l2.any (fun p => p.1 = k) := by
    by_cases h1 : l1.any (fun p => decide (p.1 = k)) = true
    · have h2 : l2.any (fun p => decide (p.1 = k)) = true := by
        simp only [List.any_eq_true] at h1 ⊢
        obtain ⟨p, hp', hk⟩ := h1
        exact ⟨p, hp.subset hp', hk⟩
      rw [h1, h2]
    · have h2 : ¬ l2.any (fun p => decide (p.1 = k)) = true := by
        simp only [List.any_eq_true] at h1 ⊢
        rintro ⟨p, hp', hk⟩
        exact h1 ⟨p, hp.symm.subset hp', hk⟩
      rw [Bool.not_eq_true] at h1 h2
      rw [h1, h2]
  have hkeys : ∀ (l : List (String × α)),
      ((l.map (fun p => if p.1 = k then (k, v) else p)).map Prod.fst) = l.map Prod.fst := by
    intro l
    rw [List.map_map]
    apply List.map_congr_left
    intro p _
    by_cases hpk : p.1 = k <;> simp [hpk]
  unfold assocUpsert
  by_cases hc : l1.any (fun p => decide (p.1 = k)) = true
  · rw [hc, ← hany, hc]
    simp only [if_true]
    refine ⟨hp.map _, ?_⟩
    rw [hkeys l1]
    exact hnd
  · rw [Bool.not_eq_true] at hc
    rw [hc, ← hany, hc]
    simp only [Bool.false_eq_true, if_false]
    refine ⟨hp.append_right [(k, v)], ?_⟩
    rw [List.map_append]
    refine List.Nodup.append hnd (by simp) ?_
    intro a ha hb
    simp only [List.map_cons, List.map_nil, List.mem_singleton] at hb
    obtain ⟨p, hp', hpk⟩ := List.mem_map.mp ha
    have hKany : l1.any (fun q => decide (q.1 = k)) = true := by
      simp only [List.any_eq_true]
      refine ⟨p, hp', ?_⟩
      simp [hpk, hb]
    rw [hc] at hKany
    cases hKany

theorem containerRel_resolverByTypeName (c1 c2 : container) (h : containerRel c1 c2)
    (s : String) : c1.resolverByTypeName s = c2.resolverByTypeName s :=
  assocFind_perm _ _ h.1 h.2.1 s

theorem containerRel_addResolver (c1 c2 : container) (h : containerRel c1 c2)
    (typ : GoType) (r : resolver) :
    containerRel (c1.addResolver typ r) (c2.addResolver typ r) := by
  obtain ⟨hperm, hnd, h3, h4, h5, h6, h7⟩ := h
  have := assocUpsert_perm c1.resolvers c2.resolvers hperm hnd
    (fullyQualifiedTypeName typ) r
  exact ⟨this.1, this.2, h3, h4, h5, h6, h7⟩

theorem containerRel_push (c1 c2 : container) (h : containerRel c1 c2) (loc : Location) :
    containerRel (c1.pushCaller loc) (c2.pushCaller loc) := by
  obtain ⟨hperm, hnd, h3, h4, h5, h6, h7⟩ := h
  exact ⟨hperm, hnd, h3, h4, h5, by simp [h6], by simp [h7]⟩

theorem containerRel_pop (c1 c2 : container) (h : containerRel c1 c2) (loc : Location) :
    containerRel (c1.popCaller loc) (c2.popCaller loc) := by
  obtain ⟨hperm, hnd, h3, h4, h5, h6, h7⟩ := h
  exact ⟨hperm, hnd, h3, h4, h5, by simp [container.popCaller, h6],
    by simp [container.popCaller, h7]⟩

theorem containerRel_setProvider (c1 c2 : container) (h : containerRel c1 c2)
    (i : Nat) (f : simpleProvider → simpleProvider) :
    containerRel (c1.setProvider i f) (c2.setProvider i f) := by
  obtain ⟨hperm, hnd, h3, h4, h5, h6, h7⟩ := h
  exact ⟨hperm, hnd, h3, by simp [container.setProvider, h4], h5, h6, h7⟩

theorem containerRel_setGroup (c1 c2 : container) (h : containerRel c1 c2)
    (i : Nat) (f : groupResolver → groupResolver) :
    containerRel (c1.setGroup i f) (c2.setGroup i f) := by
  obtain ⟨hperm, hnd, h3, h4, h5, h6, h7⟩ := h
  exact ⟨hperm, hnd, h3, h4, by simp [container.setGroup, h5], h6, h7⟩

theorem containerRel_findImplementingTypes (c1 c2 : container) (h : containerRel c1 c2)
    (typ : GoType) :
    (c1.findImplementingTypes typ).Perm (c2.findImplementingTypes typ) := by
  unfold container.findImplementingTypes
  exact ((h.1.map _).filter _).dedup

theorem getExplicitResolver_eq (c1 c2 : container) (h : containerRel c1 c2)
    (typ : GoType) (key : Option ModuleKey) :
    c1.getExplicitResolver typ key = c2.getExplicitResolver typ key := by
  have hib : c1.interfaceBindings = c2.interfaceBindings := h.2.2.1
  have hr : ∀ s, c1.resolverByTypeName s = c2.resolverByTypeName s :=
    containerRel_resolverByTypeName c1 c2 h
  unfold container.getExplicitResolver
  rw [hib]
  dsimp only
  cases h1 : assocFind c2.interfaceBindings
      (bindingKeyFromTypeName (fullyQualifiedTypeName typ) key) with
  | some b =>
    dsimp only
    cases hbr : b.boundResolver with
    | some r => rfl
    | none => rw [hr b.implTypeName]
  | none =>
    dsimp only
    cases h2 : assocFind c2.interfaceBindings
        (bindingKeyFromTypeName (fullyQualifiedTypeName typ) none) with
    | none => rfl
    | some b =>
      dsimp only
      cases hbr : b.boundResolver with
      | some r => rfl
      | none => rw [hr b.implTypeName]

theorem resolveInterfaceType_rel (c1 c2 : container) (h : containerRel c1 c2)
    (typ : GoType) :
    (∀ e1, c1.resolveInterfaceType typ = .error e1 →
      ∃ e2, c2.resolveInterfaceType typ = .error e2 ∧ errRel e1 e2)
  ∧ (∀ r c1', c1.resolveInterfaceType typ = .ok (r, c1') →
      ∃ c2', c2.resolveInterfaceType typ = .ok (r, c2') ∧ containerRel c1' c2') := by
  have hfp := containerRel_findImplementingTypes c1 c2 h typ
  unfold container.resolveInterfaceType
  by_cases hk : (typ.kind != GoKind.kinterface) = true
  · simp only [hk, if_true]
    refine ⟨?_, ?_⟩
    · intro e1 he
      cases he
    · intro r c1' hok
      cases hok
      exact ⟨c2, rfl, h⟩
  · rw [Bool.not_eq_true] at hk
    simp only [hk, Bool.false_eq_true, if_false]
    cases hm1 : c1.findImplementingTypes typ with
    | nil =>
      rw [hm1] at hfp
      have hm2 : c2.findImplementingTypes typ = [] := hfp.symm.eq_nil
      rw [hm2]
      refine ⟨?_, ?_⟩
      · intro e1 he
        cases he
      · intro r c1' hok
        cases hok
        exact ⟨c2, rfl, h⟩
    | cons a tail =>
      cases tail with
      | nil =>
        rw [hm1] at hfp
        have hm2 : c2.findImplementingTypes typ = [a] :=
          (List.singleton_perm.mp hfp).symm
        rw [hm2]
        dsimp only
        have hrb : c1.resolverByType a = c2.resolverByType a :=
          containerRel_resolverByTypeName c1 c2 h (fullyQualifiedTypeName a)
        rw [hrb]
        cases hrv : c2.resolverByType a with
        | some res =>
          refine ⟨?_, ?_⟩
          · intro e1 he
            cases he
          · intro r c1' hok
            cases hok
            exact ⟨c2.addResolver typ res, rfl, containerRel_addResolver c1 c2 h typ res⟩
        | none =>
          refine ⟨?_, ?_⟩
          · intro e1 he
            cases he
          · intro r c1' hok
            cases hok
            exact ⟨c2, rfl, h⟩
      | cons b rest =>
        rw [hm1] at hfp
        rcases hm2 : c2.findImplementingTypes typ with - | ⟨a', - | ⟨b', rest'⟩⟩
        · rw [hm2] at hfp
          have := hfp.length_eq
          simp at this
        · rw [hm2] at hfp
          have := hfp.length_eq
          simp at this
        · rw [hm2] at hfp
          refine ⟨?_, ?_⟩
          · intro e1 he
            cases he
            exact ⟨.multipleImplicitBindings typ (a' :: b' :: rest'), rfl, rfl, hfp⟩
          · intro r c1' hok
            cases hok

theorem createContainerResolver_rel (c1 c2 : container) (h : containerRel c1 c2)
    (elemType typ : GoType) :
    (∀ e1, c1.createContainerResolver elemType typ = .error e1 →
      ∃ e2, c2.createContainerResolver elemType typ = .error e2 ∧ errRel e1 e2)
  ∧ (∀ r c1', c1.createContainerResolver elemType typ = .ok (r, c1') →
      ∃ c2', c2.createContainerResolver elemType typ = .ok (r, c2') ∧ containerRel c1' c2') := by
  unfold container.createContainerResolver
  by_cases hm : isManyPerContainerSliceType typ = true
  · simp only [hm, if_true]
    have hrb : c1.resolverByType elemType = c2.resolverByType elemType :=
      containerRel_resolverByTypeName c1 c2 h (fullyQualifiedTypeName elemType)
    rw [hrb]
    have hgr : c1.groupResolvers = c2.groupResolvers := h.2.2.2.2.1
    cases hrv : c2.resolverByType elemType with
    | some r0 =>
      cases r0 with
      | simple spIdx t idx =>
        refine ⟨?_, ?_⟩
        · intro e1 he
          cases he
        · intro r c1' hok
          cases hok
          exact ⟨c2, rfl, h⟩
      | sliceGroup gi st =>
        refine ⟨?_, ?_⟩
        · intro e1 he
          cases he
        · intro r c1' hok
          cases hok
          exact ⟨c2, rfl, h⟩
      | group gi st =>
        refine ⟨?_, ?_⟩
        · intro e1 he
          cases he
        · intro r c1' hok
          cases hok
          exact ⟨c2.addResolver typ (resolver.sliceGroup gi st), rfl,
            containerRel_addResolver c1 c2 h typ (resolver.sliceGroup gi st)⟩
    | none =>
      have hext : containerRel
          { c1 with groupResolvers := c1.groupResolvers ++
              [{ typ := elemType, sliceType := typ, idxsInValues := [], providers := [],
                 resolved := false, values := [] }] }
          { c2 with groupResolvers := c1.groupResolvers ++
              [{ typ := elemType, sliceType := typ, idxsInValues := [], providers := [],
                 resolved := false, values := [] }] } := by
        obtain ⟨hperm, hnd, h3, h4, h5, h6, h7⟩ := h
        exact ⟨hperm, hnd, h3, h4, rfl, h6, h7⟩
      refine ⟨?_, ?_⟩
      · intro e1 he
        cases he
      · intro r c1' hok
        rw [← hgr]
        cases hok
        refine ⟨_, rfl, ?_⟩
        exact containerRel_addResolver _ _
          (containerRel_addResolver _ _ hext elemType _) typ _
  · rw [Bool.not_eq_true] at hm
    simp only [hm, Bool.false_eq_true, if_false]
    refine ⟨?_, ?_⟩
    · intro e1 he
      cases he
    · intro r c1' hok
      cases hok
      exact ⟨c2, rfl, h⟩

theorem getResolver_rel (c1 c2 : container) (h : containerRel c1 c2)
    (typ : GoType) (key : Option ModuleKey) :
    (∀ e1, c1.getResolver typ key = .error e1 →
      ∃ e2, c2.getResolver typ key = .error e2 ∧ errRel e1 e2)
  ∧ (∀ r c1', c1.getResolver typ key = .ok (r, c1') →
      ∃ c2', c2.getResolver typ key = .ok (r, c2') ∧ containerRel c1' c2') := by
  unfold container.getResolver
  rw [getExplicitResolver_eq c1 c2 h typ key]
  cases hge : c2.getExplicitResolver typ key with
  | error e =>
    refine ⟨?_, ?_⟩
    · intro e1 he
      cases he
      exact ⟨e, rfl, errRel_refl e⟩
    · intro r c1' hok
      cases hok
  | ok or =>
    cases or with
    | some r =>
      refine ⟨?_, ?_⟩
      · intro e1 he
        cases he
      · intro r' c1' hok
        cases hok
        exact ⟨c2, rfl, h⟩
    | none =>
      have hrb : c1.resolverByType typ = c2.resolverByType typ :=
        containerRel_resolverByTypeName c1 c2 h (fullyQualifiedTypeName typ)
      rw [hrb]
      cases hrv : c2.resolverByType typ with
      | some r =>
        refine ⟨?_, ?_⟩
        · intro e1 he
          cases he
        · intro r' c1' hok
          cases hok
          exact ⟨c2, rfl, h⟩
      | none =>
        simp only [container.getElementType]
        by_cases he : (if isManyPerContainerSliceType typ || isOnePerModuleMapType typ
            then typ.elemType else typ) = typ
        · simp only [he, if_true]
          exact resolveInterfaceType_rel c1 c2 h typ
        · simp only [he, if_false]
          exact createContainerResolver_rel c1 c2 h _ typ

theorem foldl_groupStep_error (fuel : Nat) (e : Err) :
    ∀ (l : List (Nat × Nat)) (c : container),
      l.foldl (groupStep fuel) (.error e, c) = (.error e, c) := by
  intro l
  induction l with
  | nil => intro c; rfl
  | cons b rest ih => intro c; simpa [List.foldl_cons, groupStep] using ih c

theorem foldl_resolveStep_error (fuel : Nat) (mk : Option ModuleKey) (loc : Location)
    (e : Err) :
    ∀ (l : List providerInput) (c : container),
      l.foldl (resolveStep fuel mk loc) (.error e, c) = (.error e, c) := by
  intro l
  induction l with
  | nil => intro c; rfl
  | cons b rest ih => intro c; simpa [List.foldl_cons, resolveStep] using ih c

theorem foldl_buildStep_error (fuel : Nat) (loc : Location) (e : Err) :
    ∀ (l : List GoType) (c : container),
      l.foldl (buildStep fuel loc) (.error e, c) = (.error e, c) := by
  intro l
  induction l with
  | nil => intro c; rfl
  | cons b rest ih => intro c; simpa [List.foldl_cons, buildStep] using ih c

theorem outRel_error {α : Type} (e1 e2 : Err) (c1 c2 : container)
    (herr : errRel e1 e2) (hrel : containerRel c1 c2) :
    outRel ((.error e1 : Except Err α), c1) (.error e2, c2) :=
  ⟨herr, hrel⟩

theorem outRel_ok {α : Type} (a : α) (c1 c2 : container)
    (hrel : containerRel c1 c2) :
    outRel ((.ok a : Except Err α), c1) (.ok a, c2) :=
  ⟨rfl, hrel⟩

/-- The outcome of every resolution function is invariant under the layout
of the resolver registry (the order of the underlying Go map): related
containers produce equal success values, equivalent errors (equal up to the
order of an ambiguity candidate list), and related result containers. -/
theorem interp_registry_layout : ∀ fuel : Nat,
    (∀ c1 c2 p mk, containerRel c1 c2 →
      outRel (call fuel c1 p mk) (call fuel c2 p mk))
  ∧ (∀ c1 c2 ins mk loc, containerRel c1 c2 →
      outRel (resolveInputs fuel c1 ins mk loc) (resolveInputs fuel c2 ins mk loc))
  ∧ (∀ c1 c2 inp mk loc, containerRel c1 c2 →
      outRel (resolve fuel c1 inp mk loc) (resolve fuel c2 inp mk loc))
  ∧ (∀ c1 c2 r mk loc, containerRel c1 c2 →
      outRel (resolverResolve fuel c1 r mk loc) (resolverResolve fuel c2 r mk loc))
  ∧ (∀ c1 c2 i, containerRel c1 c2 →
      outRel (simpleProvider.resolveValues fuel c1 i)
        (simpleProvider.resolveValues fuel c2 i))
  ∧ (∀ c1 c2 pairs acc, containerRel c1 c2 →
      outRel (groupLoop fuel c1 pairs acc) (groupLoop fuel c2 pairs acc))
  ∧ (∀ c1 c2 i, containerRel c1 c2 →
      outRel (groupResolver.resolveValues fuel c1 i)
        (groupResolver.resolveValues fuel c2 i)) := by
  intro fuel
  induction fuel with
  | zero =>
    exact ⟨fun c1 c2 p mk h => outRel_error .outOfFuel .outOfFuel _ _ (errRel_refl _) h,
      fun c1 c2 ins mk loc h => outRel_error .outOfFuel .outOfFuel _ _ (errRel_refl _) h,
      fun c1 c2 inp mk loc h => outRel_error .outOfFuel .outOfFuel _ _ (errRel_refl _) h,
      fun c1 c2 r mk loc h => outRel_error .outOfFuel .outOfFuel _ _ (errRel_refl _) h,
      fun c1 c2 i h => outRel_error .outOfFuel .outOfFuel _ _ (errRel_refl _) h,
      fun c1 c2 pairs acc h => outRel_error .outOfFuel .outOfFuel _ _ (errRel_refl _) h,
      fun c1 c2 i h => outRel_error .outOfFuel .outOfFuel _ _ (errRel_refl _) h⟩
  | succ fuel ih =>
    obtain ⟨ihcall, -, -, -, -, -, -⟩ := ih
    have hsp : ∀ c1 c2 i, containerRel c1 c2 →
        outRel (simpleProvider.resolveValues (fuel + 1) c1 i)
          (simpleProvider.resolveValues (fuel + 1) c2 i) := by
      intro c1 c2 i h
      rw [spResolveValues_succ, spResolveValues_succ]
      have hspEq : c1.simpleProviders = c2.simpleProviders := h.2.2.2.1
      rw [← hspEq]
      cases hsome : c1.simpleProviders[i]? with
      | none =>
        simp only [hsome]
        exact outRel_error _ _ _ _ (errRel_refl _) h
      | some sp =>
        simp only [hsome]
        by_cases hc : sp.called = true
        · rw [if_pos hc, if_pos hc]
          exact outRel_ok _ _ _ h
        · rw [if_neg hc, if_neg hc]
          have ihc := ihcall c1 c2 sp.provider sp.moduleKey h
          rcases h1 : call fuel c1 sp.provider sp.moduleKey with ⟨res1, c1'⟩
          rcases h2 : call fuel c2 sp.provider sp.moduleKey with ⟨res2, c2'⟩
          rw [h1, h2] at ihc
          obtain ⟨hex, hrel⟩ := ihc
          cases res1 with
          | error e1 =>
            cases res2 with
            | error e2 => exact outRel_error _ _ _ _ hex hrel
            | ok v => exact hex.elim
          | ok vals1 =>
            cases res2 with
            | error e2 => exact hex.elim
            | ok vals2 =>
              have hv : vals1 = vals2 := hex
              subst hv
              exact outRel_ok _ _ _ (containerRel_setProvider _ _ hrel i _)
    have hgl : ∀ c1 c2 pairs acc, containerRel c1 c2 →
        outRel (groupLoop (fuel + 1) c1 pairs acc)
          (groupLoop (fuel + 1) c2 pairs acc) := by
      intro c1 c2 pairs acc h
      rw [groupLoop_eq, groupLoop_eq]
      have hgen : ∀ (ps : List (Nat × Nat)) (acc : List Value) c1 c2,
          containerRel c1 c2 →
          outRel (ps.foldl (groupStep (fuel + 1)) (.ok acc, c1))
            (ps.foldl (groupStep (fuel + 1)) (.ok acc, c2)) := by
        intro ps
        induction ps with
        | nil =>
          intro acc c1 c2 h'
          exact outRel_ok _ _ _ h'
        | cons pi rest ihp =>
          intro acc c1 c2 h'
          simp only [List.foldl_cons]
          have hstep := hsp c1 c2 pi.1 h'
          rcases h1 : simpleProvider.resolveValues (fuel + 1) c1 pi.1 with ⟨res1, c1'⟩
          rcases h2 : simpleProvider.resolveValues (fuel + 1) c2 pi.1 with ⟨res2, c2'⟩
          rw [h1, h2] at hstep
          obtain ⟨hex, hrel⟩ := hstep
          cases res1 with
          | error e1 =>
            cases res2 with
            | error e2 =>
              have hg1 : groupStep (fuel + 1) (.ok acc, c1) pi = (.error e1, c1') := by
                unfold groupStep
                dsimp only
                rw [h1]
              have hg2 : groupStep (fuel + 1) (.ok acc, c2) pi = (.error e2, c2') := by
                unfold groupStep
                dsimp only
                rw [h2]
              rw [hg1, hg2, foldl_groupStep_error, foldl_groupStep_error]
              exact outRel_error _ _ _ _ hex hrel
            | ok v => exact hex.elim
          | ok vals1 =>
            cases res2 with
            | error e2 => exact hex.elim
            | ok vals2 =>
              have hv : vals1 = vals2 := hex
              subst hv
              cases hidx : vals1[pi.2]? with
              | none =>
                have hg1 : groupStep (fuel + 1) (.ok acc, c1) pi
                    = (.error (.internalError "output index out of range"), c1') := by
                  unfold groupStep
                  dsimp only
                  rw [h1]
                  dsimp only
                  rw [hidx]
                have hg2 : groupStep (fuel + 1) (.ok acc, c2) pi
                    = (.error (.internalError "output index out of range"), c2') := by
                  unfold groupStep
                  dsimp only
                  rw [h2]
                  dsimp only
                  rw [hidx]
                rw [hg1, hg2, foldl_groupStep_error, foldl_groupStep_error]
                exact outRel_error _ _ _ _ (errRel_refl _) hrel
              | some v =>
                have hg1 : groupStep (fuel + 1) (.ok acc, c1) pi
                    = (.ok (appendValue acc v), c1') := by
                  unfold groupStep
                  dsimp only
                  rw [h1]
                  dsimp only
                  rw [hidx]
                have hg2 : groupStep (fuel + 1) (.ok acc, c2) pi
                    = (.ok (appendValue acc v), c2') := by
                  unfold groupStep
                  dsimp only
                  rw [h2]
                  dsimp only
                  rw [hidx]
                rw [hg1, hg2]
                exact ihp (appendValue acc v) c1' c2' hrel
      exact hgen pairs acc c1 c2 h
    have hgrv : ∀ c1 c2 i, containerRel c1 c2 →
        outRel (groupResolver.resolveValues (fuel + 1) c1 i)
          (groupResolver.resolveValues (fuel + 1) c2 i) := by
      intro c1 c2 i h
      rw [groupResolveValues_succ, groupResolveValues_succ]
      have hgrEq : c1.groupResolvers = c2.groupResolvers := h.2.2.2.2.1
      rw [← hgrEq]
      cases hsome : c1.groupResolvers[i]? with
      | none =>
        simp only [hsome]
        exact outRel_error _ _ _ _ (errRel_refl _) h
      | some g =>
        simp only [hsome]
        have hstep := hgl c1 c2 (g.providers.zip g.idxsInValues) [] h
        rcases h1 : groupLoop (fuel + 1) c1 (g.providers.zip g.idxsInValues) []
          with ⟨res1, c1'⟩
        rcases h2 : groupLoop (fuel + 1) c2 (g.providers.zip g.idxsInValues) []
          with ⟨res2, c2'⟩
        rw [h1, h2] at hstep
        obtain ⟨hex, hrel⟩ := hstep
        cases res1 with
        | error e1 =>
          cases res2 with
          | error e2 => exact outRel_error _ _ _ _ hex hrel
          | ok v => exact hex.elim
        | ok vals1 =>
          cases res2 with
          | error e2 => exact hex.elim
          | ok vals2 =>
            have hv : vals1 = vals2 := hex
            subst hv
            exact outRel_ok _ _ _ (containerRel_setGroup _ _ hrel i _)
    have hrr : ∀ c1 c2 r mk loc, containerRel c1 c2 →
        outRel (resolverResolve (fuel + 1) c1 r mk loc)
          (resolverResolve (fuel + 1) c2 r mk loc) := by
      intro c1 c2 r mk loc h
      rw [resolverResolve_succ, resolverResolve_succ]
      cases r with
      | simple spIdx t idx =>
        dsimp only
        have hstep := hsp c1 c2 spIdx h
        rcases h1 : simpleProvider.resolveValues (fuel + 1) c1 spIdx with ⟨res1, c1'⟩
        rcases h2 : simpleProvider.resolveValues (fuel + 1) c2 spIdx with ⟨res2, c2'⟩
        rw [h1, h2] at hstep
        obtain ⟨hex, hrel⟩ := hstep
        cases res1 with
        | error e1 =>
          cases res2 with
          | error e2 => exact outRel_error _ _ _ _ hex hrel
          | ok v => exact hex.elim
        | ok vals1 =>
          cases res2 with
          | error e2 => exact hex.elim
          | ok vals2 =>
            have hv : vals1 = vals2 := hex
            subst hv
            dsimp only
            cases hidx : vals1[idx]? with
            | none =>
              simp only [hidx]
              exact outRel_error _ _ _ _ (errRel_refl _) hrel
            | some v =>
              simp only [hidx]
              exact outRel_ok _ _ _ hrel
      | sliceGroup grIdx st =>
        dsimp only
        have hgrEq : c1.groupResolvers = c2.groupResolvers := h.2.2.2.2.1
        rw [← hgrEq]
        cases hsome : c1.groupResolvers[grIdx]? with
        | none =>
          simp only [hsome]
          exact outRel_error _ _ _ _ (errRel_refl _) h
        | some g =>
          simp only [hsome]
          by_cases hres : g.resolved = true
          · rw [if_pos hres, if_pos hres]
            exact outRel_ok _ _ _ h
          · rw [if_neg hres, if_neg hres]
            have hstep := hgrv c1 c2 grIdx h
            rcases h1 : groupResolver.resolveValues (fuel + 1) c1 grIdx with ⟨res1, c1'⟩
            rcases h2 : groupResolver.resolveValues (fuel + 1) c2 grIdx with ⟨res2, c2'⟩
            rw [h1, h2] at hstep
            obtain ⟨hex, hrel⟩ := hstep
            cases res1 with
            | error e1 =>
              cases res2 with
              | error e2 => exact outRel_error _ _ _ _ hex hrel
              | ok v => exact hex.elim
            | ok u1 =>
              cases res2 with
              | error e2 => exact hex.elim
              | ok u2 =>
                dsimp only
                have hgrEq' : c1'.groupResolvers = c2'.groupResolvers := hrel.2.2.2.2.1
                rw [← hgrEq']
                cases hsome1 : c1'.groupResolvers[grIdx]? with
                | some g1 =>
                  simp only [hsome1]
                  exact outRel_ok _ _ _ hrel
                | none =>
                  simp only [hsome1]
                  exact outRel_error _ _ _ _ (errRel_refl _) hrel
      | group grIdx st =>
        dsimp only
        have hgrEq : c1.groupResolvers = c2.groupResolvers := h.2.2.2.2.1
        rw [← hgrEq]
        cases hsome : c1.groupResolvers[grIdx]? with
        | none =>
          simp only [hsome]
          exact outRel_error _ _ _ _ (errRel_refl _) h
        | some g =>
          simp only [hsome]
          exact outRel_error _ _ _ _ (errRel_refl _) h
    have hres : ∀ c1 c2 inp mk loc, containerRel c1 c2 →
        outRel (resolve (fuel + 1) c1 inp mk loc)
          (resolve (fuel + 1) c2 inp mk loc) := by
      intro c1 c2 inp mk loc h
      rw [resolve_succ, resolve_succ]
      have hgr := getResolver_rel c1 c2 h inp.typ mk
      cases h1 : c1.getResolver inp.typ mk with
      | error e1 =>
        obtain ⟨e2, h2, herr⟩ := hgr.1 e1 h1
        rw [h2]
        exact outRel_error _ _ _ _ herr h
      | ok p1 =>
        rcases p1 with ⟨vr, c1'⟩
        obtain ⟨c2', h2, hrel⟩ := hgr.2 vr c1' h1
        rw [h2]
        cases vr with
        | some r =>
          exact hrr c1' c2' r mk loc hrel
        | none =>
          dsimp only
          by_cases hopt : inp.optional = true
          · rw [if_pos hopt, if_pos hopt]
            exact outRel_ok _ _ _ hrel
          · rw [if_neg hopt, if_neg hopt]
            exact outRel_error _ _ _ _ (errRel_refl _) hrel
    have hri : ∀ c1 c2 ins mk loc, containerRel c1 c2 →
        outRel (resolveInputs (fuel + 1) c1 ins mk loc)
          (resolveInputs (fuel + 1) c2 ins mk loc) := by
      intro c1 c2 ins mk loc h
      rw [resolveInputs_eq, resolveInputs_eq]
      have hgen : ∀ (ins' : List providerInput) (acc : List Value) c1 c2,
          containerRel c1 c2 →
          outRel (ins'.foldl (resolveStep (fuel + 1) mk loc) (.ok acc, c1))
            (ins'.foldl (resolveStep (fuel + 1) mk loc) (.ok acc, c2)) := by
        intro ins'
        induction ins' with
        | nil =>
          intro acc c1 c2 h'
          exact outRel_ok _ _ _ h'
        | cons inp rest ihp =>
          intro acc c1 c2 h'
          simp only [List.foldl_cons]
          have hstep := hres c1 c2 inp mk loc h'
          rcases h1 : resolve (fuel + 1) c1 inp mk loc with ⟨res1, c1'⟩
          rcases h2 : resolve (fuel + 1) c2 inp mk loc with ⟨res2, c2'⟩
          rw [h1, h2] at hstep
          obtain ⟨hex, hrel⟩ := hstep
          cases res1 with
          | error e1 =>
            cases res2 with
            | error e2 =>
              have hg1 : resolveStep (fuel + 1) mk loc (.ok acc, c1) inp
                  = (.error e1, c1') := by
                unfold resolveStep
                dsimp only
                rw [h1]
              have hg2 : resolveStep (fuel + 1) mk loc (.ok acc, c2) inp
                  = (.error e2, c2') := by
                unfold resolveStep
                dsimp only
                rw [h2]
              rw [hg1, hg2, foldl_resolveStep_error, foldl_resolveStep_error]
              exact outRel_error _ _ _ _ hex hrel
            | ok v => exact hex.elim
          | ok v1 =>
            cases res2 with
            | error e2 => exact hex.elim
            | ok v2 =>
              have hv : v1 = v2 := hex
              subst hv
              have hg1 : resolveStep (fuel + 1) mk loc (.ok acc, c1) inp
                  = (.ok (acc ++ [v1]), c1') := by
                unfold resolveStep
                dsimp only
                rw [h1]
              have hg2 : resolveStep (fuel + 1) mk loc (.ok acc, c2) inp
                  = (.ok (acc ++ [v1]), c2') := by
                unfold resolveStep
                dsimp only
                rw [h2]
              rw [hg1, hg2]
              exact ihp (acc ++ [v1]) c1' c2' hrel
      exact hgen ins [] c1 c2 h
    have hcall : ∀ c1 c2 p mk, containerRel c1 c2 →
        outRel (call (fuel + 1) c1 p mk) (call (fuel + 1) c2 p mk) := by
      intro c1 c2 p mk h
      rw [call_succ, call_succ]
      have hcm : c1.callerMap = c2.callerMap := h.2.2.2.2.2.2
      have hcyc : c1.checkCyclicDependency p.location
          = c2.checkCyclicDependency p.location := by
        unfold container.checkCyclicDependency
        rw [hcm]
      rw [← hcyc]
      cases hck : c1.checkCyclicDependency p.location with
      | some e =>
        simp only [hck]
        exact outRel_error _ _ _ _ (errRel_refl _) h
      | none =>
        simp only [hck]
        have hpush := containerRel_push c1 c2 h p.location
        have hstep := hri (c1.pushCaller p.location) (c2.pushCaller p.location)
          p.inputs mk p.location hpush
        rcases h1 : resolveInputs (fuel + 1) (c1.pushCaller p.location) p.inputs mk
          p.location with ⟨res1, c1'⟩
        rcases h2 : resolveInputs (fuel + 1) (c2.pushCaller p.location) p.inputs mk
          p.location with ⟨res2, c2'⟩
        rw [h1, h2] at hstep
        obtain ⟨hex, hrel⟩ := hstep
        cases res1 with
        | error e1 =>
          cases res2 with
          | error e2 =>
            exact outRel_error _ _ _ _ hex (containerRel_pop _ _ hrel p.location)
          | ok v => exact hex.elim
        | ok inVals1 =>
          cases res2 with
          | error e2 => exact hex.elim
          | ok inVals2 =>
            have hv : inVals1 = inVals2 := hex
            subst hv
            dsimp only
            cases hfn : p.fn inVals1 with
            | error msg =>
              simp only [hfn]
              exact outRel_error _ _ _ _ (errRel_refl _) (containerRel_pop _ _ hrel p.location)
            | ok out =>
              simp only [hfn]
              exact outRel_ok _ _ _ (containerRel_pop _ _ hrel p.location)
    exact ⟨hcall, hri, hres, hrr, hsp, hgl, hgrv⟩

/-- C9: determinism of the build — for a fixed configuration and a fixed
list of requested output types, two containers holding the same registered
providers, bindings and group state, whose resolver registries differ only
in entry order (the nondeterministic layout of the underlying Go map, with
no duplicate type keys), produce the same success-or-error outcome: on
success the resolved output values are structurally identical, and on
failure the errors agree up to the order of an ambiguity candidate list;
the final containers are again related the same way. -/
theorem c9_determinism (fuel : Nat) (c1 c2 : container) (loc : Location)
    (outputs : List GoType) (h : containerRel c1 c2) :
    outRel (container.build fuel c1 loc outputs)
      (container.build fuel c2 loc outputs) := by
  rw [build_eq, build_eq]
  have hres := (interp_registry_layout fuel).2.2.1
  have hgen : ∀ (outs : List GoType) (acc : List Value) c1 c2,
      containerRel c1 c2 →
      outRel (outs.foldl (buildStep fuel loc) (.ok acc, c1))
        (outs.foldl (buildStep fuel loc) (.ok acc, c2)) := by
    intro outs
    induction outs with
    | nil =>
      intro acc c1 c2 h'
      exact outRel_ok _ _ _ h'
    | cons t rest ihp =>
      intro acc c1 c2 h'
      simp only [List.foldl_cons]
      have hstep := hres c1 c2 { typ := t, optional := false } none loc h'
      rcases h1 : resolve fuel c1 { typ := t, optional := false } none loc
        with ⟨res1, c1'⟩
      rcases h2 : resolve fuel c2 { typ := t, optional := false } none loc
        with ⟨res2, c2'⟩
      rw [h1, h2] at hstep
      obtain ⟨hex, hrel⟩ := hstep
      cases res1 with
      | error e1 =>
        cases res2 with
        | error e2 =>
          have hg1 : buildStep fuel loc (.ok acc, c1) t = (.error e1, c1') := by
            unfold buildStep
            dsimp only
            rw [h1]
          have hg2 : buildStep fuel loc (.ok acc, c2) t = (.error e2, c2') := by
            unfold buildStep
            dsimp only
            rw [h2]
          rw [hg1, hg2, foldl_buildStep_error, foldl_buildStep_error]
          exact outRel_error _ _ _ _ hex hrel
        | ok v => exact hex.elim
      | ok v1 =>
        cases res2 with
        | error e2 => exact hex.elim
        | ok v2 =>
          have hv : v1 = v2 := hex
          subst hv
          have hg1 : buildStep fuel loc (.ok acc, c1) t = (.ok (acc ++ [v1]), c1') := by
            unfold buildStep
            dsimp only
            rw [h1]
          have hg2 : buildStep fuel loc (.ok acc, c2) t = (.ok (acc ++ [v1]), c2') := by
            unfold buildStep
            dsimp only
            rw [h2]
          rw [hg1, hg2]
          exact ihp (acc ++ [v1]) c1' c2' hrel
  exact hgen outputs [] c1 c2 h

/-- Witness for C9: the two concrete registries holding the same entries in
opposite orders satisfy the layout relation, and building the same request
from both yields related (here: identical-success) outcomes. -/
theorem c9_determinism_witness :
    containerRel permContainerA permContainerB ∧
    outRel (container.build 5 permContainerA topLoc [intType])
      (container.build 5 permContainerB topLoc [intType]) := by
  have h : containerRel permContainerA permContainerB :=
    ⟨by decide, by decide, rfl, rfl, rfl, rfl, rfl⟩
  exact ⟨h, c9_determinism 5 permContainerA permContainerB topLoc [intType] h⟩
